import Mathlib

set_option maxRecDepth 100000

namespace Alfred

/-!
# Verification of the Alfred memory subsystem (alialmef/reality)

Shallow embedding of the parts of the repository that the frozen claims
C1–C10 speak about:

* `src/memory/user_profile.py` — learned facts with confidence decay,
  reinforcement, contradiction links (`UserProfile`);
* `src/memory/relationships.py` — the relationship graph with fuzzy name
  matching and mention disambiguation (`RelationshipGraph`);
* `src/context/patterns.py` — door-event pattern detection and promotion
  to routines (`PatternDetector`);
* `src/memory/consolidation.py` — memory consolidation (`MemoryConsolidator`).

Modelling conventions:

* Python floats are modelled exactly: a value of type `ℚ` that is the exact
  value of an IEEE-754 binary64 number, with every arithmetic operation of
  the source rounded by `fl` (round to nearest, ties to even).  Decimal
  literals of the source such as `0.1` are embedded as `fl (1/10)`, the
  double the Python parser produces.  Overflow and subnormals are outside
  the range of any value appearing in this program and are not modelled.
* Timestamps (`datetime.now().isoformat()` strings) are modelled as `ℤ`
  seconds; `timedelta.days` is floored division by 86400, and the
  lexicographic comparison of two ISO strings of the same format is the
  numeric comparison of the instants.
* Persistence (`_save`/`_load`), logging and the network client are
  irrelevant to the claims; external oracle calls (the Anthropic API) are
  modelled by an explicit parameter carrying the outcome of the call.
* Python strings are Lean `String`s; `str.lower` is `pyLower`, `str.strip`
  is `pyStrip` (ASCII range — every string of the claims is ASCII), and the
  substring test `a in b` is infix containment of the character lists.
-/

/-! ## Exact binary64 arithmetic over ℚ

`fl q` is the binary64 double nearest to the rational `q` (ties to even),
returned as a rational.  All Python float arithmetic in the sources is
embedded as exact rational arithmetic followed by `fl`.
-/

/-- Exact rational addition, written out on numerators and denominators
(`Rat.add` itself is `@[irreducible]`, which blocks kernel evaluation). -/
def qadd (a b : ℚ) : ℚ :=
  Rat.divInt (a.num * (b.den : ℤ) + b.num * (a.den : ℤ)) ((a.den : ℤ) * (b.den : ℤ))

/-- Exact rational subtraction (kernel-computable). -/
def qsub (a b : ℚ) : ℚ :=
  Rat.divInt (a.num * (b.den : ℤ) - b.num * (a.den : ℤ)) ((a.den : ℤ) * (b.den : ℤ))

/-- Exact rational multiplication (kernel-computable). -/
def qmul (a b : ℚ) : ℚ := Rat.divInt (a.num * b.num) ((a.den : ℤ) * (b.den : ℤ))

/-- Exact rational division (kernel-computable). -/
def qdiv (a b : ℚ) : ℚ := Rat.divInt (a.num * (b.den : ℤ)) ((a.den : ℤ) * b.num)

/-- Base-2 logarithm of a natural number via structural recursion on a fuel
argument (the fuel only has to exceed the logarithm, and `n` itself does). -/
def log2fuel : ℕ → ℕ → ℕ
  | 0, _ => 0
  | fuel + 1, n => if n < 2 then 0 else log2fuel fuel (n / 2) + 1

/-- `⌊log₂ n⌋` for `n ≥ 1` (0 for `n = 0`). -/
def natLog2 (n : ℕ) : ℕ := log2fuel n n

/-- `2 ^ e` as a rational, for an integer exponent. -/
def pow2 (e : ℤ) : ℚ :=
  if 0 ≤ e then Rat.divInt (2 ^ e.toNat) 1 else Rat.divInt 1 (2 ^ (-e).toNat)

/-- Round a rational to the nearest integer, ties to even. -/
def rnte (q : ℚ) : ℤ :=
  let f := q.floor
  let r := qsub q (Rat.divInt f 1)
  if r < Rat.divInt 1 2 then f
  else if Rat.divInt 1 2 < r then f + 1
  else if f % 2 = 0 then f else f + 1

/-- `⌊log₂ a⌋` of a positive rational. -/
def floorLog2 (a : ℚ) : ℤ :=
  let e : ℤ := (natLog2 a.num.natAbs : ℤ) - (natLog2 a.den : ℤ)
  if pow2 e ≤ a then e else e - 1

/-- The binary64 double nearest to `q` (round to nearest, ties to even),
as an exact rational.  Normal range only, which covers every value of the
program. -/
def fl (q : ℚ) : ℚ :=
  if q = 0 then 0
  else
    let a : ℚ := if q < 0 then -q else q
    let e : ℤ := floorLog2 a - 52
    let r : ℚ := qmul (Rat.divInt (rnte (qmul a (pow2 (-e)))) 1) (pow2 e)
    if q < 0 then -r else r

/-- Python float addition. -/
def fadd (x y : ℚ) : ℚ := fl (qadd x y)

/-- Python float subtraction. -/
def fsub (x y : ℚ) : ℚ := fl (qsub x y)

/-- Python float multiplication. -/
def fmul (x y : ℚ) : ℚ := fl (qmul x y)

/-- Python float (true) division. -/
def fdiv (x y : ℚ) : ℚ := fl (qdiv x y)

/-- The double denoted by the Python literal `0.1`
(`CONFIDENCE_DECAY_PER_WEEK`). -/
def lit01 : ℚ := fl (Rat.divInt 1 10)

/-- The double denoted by the Python literal `0.2` (`REINFORCEMENT_BOOST`). -/
def lit02 : ℚ := fl (Rat.divInt 2 10)

/-- The double denoted by the Python literal `0.3` (`FADE_THRESHOLD`). -/
def lit03 : ℚ := fl (Rat.divInt 3 10)

/-- The double denoted by the Python literal `0.5` (the `get_facts`
default `min_confidence`). -/
def lit05 : ℚ := fl (Rat.divInt 5 10)

/-- The double denoted by the Python literal `0.6` (`CONFIDENCE_THRESHOLD`). -/
def lit06 : ℚ := fl (Rat.divInt 6 10)

/-- The double denoted by the Python literal `0.7` (similarity threshold,
default fact confidence). -/
def lit07 : ℚ := fl (Rat.divInt 7 10)

/-- The double denoted by the Python literal `0.8` (partial-match score). -/
def lit08 : ℚ := fl (Rat.divInt 8 10)

/-- The double denoted by the Python literal `0.9`. -/
def lit09 : ℚ := fl (Rat.divInt 9 10)

/-! ## Generic helpers: Python string and sorting semantics -/

/-- Python `str.lower` (ASCII range, which covers every string of the
claims; written out on the character list so that the kernel can
evaluate it). -/
def pyLower (s : String) : String := String.mk (s.data.map Char.toLower)

/-- The whitespace stripped by Python `str.strip()` (ASCII range). -/
def isStripped (c : Char) : Bool :=
  c == ' ' || c == '\t' || c == '\n' || c == '\r' || c == '\x0b' || c == '\x0c'

/-- Drop leading whitespace from a character list. -/
def dropWs : List Char → List Char
  | [] => []
  | c :: cs => if isStripped c then dropWs cs else c :: cs

/-- Python `str.strip()` (ASCII range): drop whitespace from both ends. -/
def pyStrip (s : String) : String :=
  String.mk ((dropWs ((dropWs s.data).reverse)).reverse)

/-- `listPrefix a b` holds when `a` is a prefix of `b` (helper for the
Python substring test). -/
def listPrefix : List Char → List Char → Bool
  | [], _ => true
  | _ :: _, [] => false
  | c :: cs, d :: ds => c == d && listPrefix cs ds

/-- `listInfix a b` is the Python substring test `a in b` on character
lists. -/
def listInfix (a : List Char) : List Char → Bool
  | [] => listPrefix a []
  | d :: ds => listPrefix a (d :: ds) || listInfix a ds

/-- Python `a in b` on strings. -/
def isSubstringOf (a b : String) : Bool := listInfix a.data b.data

/-- Stable insertion of `x` into a list sorted descending by `key`:
`x` goes after every element whose key is at least its own.  This is the
behaviour of Python `list.sort(key=..., reverse=True)` (stable descending)
when applied element by element. -/
def insDescBy (key : α → ℚ) (x : α) : List α → List α
  | [] => [x]
  | y :: ys => if key x ≤ key y then y :: insDescBy key x ys else x :: y :: ys

/-- Stable descending sort by a rational key, the semantics of Python
`list.sort(key=..., reverse=True)`. -/
def sortDescBy (key : α → ℚ) (l : List α) : List α :=
  l.foldl (fun acc x => insDescBy key x acc) []

/-! ## `src/memory/user_profile.py` — the Fact Store (`UserProfile`)

A learned fact is the dictionary built by `UserProfile.add_fact`; the
store is the `learned_facts` list.  `id` strings stand for the
`fact_{uuid}` identifiers (the draw of the uuid is a parameter of
`addFact`).  `name`, `preferences`, `routines`, `interests`,
`important_dates` and `knowledge_gaps` play no role in the claims about
facts and are omitted from the state.
-/

/-- The `status` field of a learned fact (`"active"`, `"faded"`,
`"forgotten"`). -/
inductive FactStatus
  | active
  | faded
  | forgotten
deriving DecidableEq, Repr

/-- One entry of `learned_facts`, as built by `UserProfile.add_fact`.
`last_reinforced` is optional, mirroring `fact.get("last_reinforced") or
fact.get("learned")`; facts created by `add_fact` always carry it. -/
structure Fact where
  id : String
  fact : String
  confidence : ℚ
  source : String
  learned : ℤ
  last_reinforced : Option ℤ
  reinforcement_count : ℕ
  status : FactStatus
  contradicts : List String
deriving DecidableEq, Repr

/-- `UserProfile._calculate_effective_confidence`: confidence decays by
`CONFIDENCE_DECAY_PER_WEEK = 0.1` per (fractional) week since the last
reinforcement.  `days_elapsed` is `timedelta.days` (floor), and
`days_elapsed / 7` is Python float division. -/
def calculateEffectiveConfidence (now : ℤ) (f : Fact) : ℚ :=
  let ref : ℤ := f.last_reinforced.getD f.learned
  let daysElapsed : ℤ := (now - ref).fdiv 86400
  let weeksElapsed : ℚ := fdiv (Rat.divInt daysElapsed 1) 7
  let decay : ℚ := fmul weeksElapsed lit01
  let effective : ℚ := fsub f.confidence decay
  max 0 (min 1 effective)

/-- The status-update rule of `UserProfile.get_facts`: `forgotten` below
`FORGET_THRESHOLD = 0.1`, `faded` below `FADE_THRESHOLD = 0.3`, else
`active`. -/
def statusFromConfidence (e : ℚ) : FactStatus :=
  if e < lit01 then .forgotten else if e < lit03 then .faded else .active

/-- A returned fact of `get_facts`: the (status-updated) fact dictionary
together with the added `effective_confidence` entry. -/
structure FactR where
  fact : Fact
  effective_confidence : ℚ
deriving DecidableEq, Repr

/-- The list returned by `UserProfile.get_facts`: facts whose stored
status is not `forgotten` and whose effective confidence reaches
`min_confidence`, statuses recomputed, sorted by effective confidence
descending. -/
def getFactsResults (now : ℤ) (minConfidence : ℚ) (facts : List Fact) : List FactR :=
  sortDescBy (fun r => r.effective_confidence)
    (facts.filterMap (fun f =>
      if f.status = .forgotten then none
      else
        let e := calculateEffectiveConfidence now f
        if minConfidence ≤ e then
          some ⟨{ f with status := statusFromConfidence e }, e⟩
        else none))

/-- The write-back side effect of `UserProfile.get_facts`: every fact not
already marked `forgotten` gets its status recomputed in place. -/
def updateStatuses (now : ℤ) (facts : List Fact) : List Fact :=
  facts.map (fun f =>
    if f.status = .forgotten then f
    else { f with status := statusFromConfidence (calculateEffectiveConfidence now f) })

/-- `UserProfile.get_facts`, with its read-time side effect made explicit:
returns the result list and the updated `learned_facts`. -/
def getFacts (now : ℤ) (minConfidence : ℚ) (facts : List Fact) :
    List FactR × List Fact :=
  (getFactsResults now minConfidence facts, updateStatuses now facts)

/-- `UserProfile._reinforce_fact`: confidence gains
`REINFORCEMENT_BOOST = 0.2` capped at `MAX_CONFIDENCE = 1.0`, the decay
clock resets, the counter increments. -/
def reinforceFact (now : ℤ) (f : Fact) : Fact :=
  { f with
    confidence := min (fadd f.confidence lit02) 1,
    last_reinforced := some now,
    reinforcement_count := f.reinforcement_count + 1 }

/-- The duplicate test of `UserProfile._find_similar_fact`:
`existing["fact"].lower().strip() == new_fact.lower().strip()`. -/
def matchesFact (text : String) (f : Fact) : Bool :=
  pyStrip (pyLower f.fact) == pyStrip (pyLower text)

/-- Reinforce the first fact matching `text`
(`_find_similar_fact` returns the first match). -/
def reinforceFirst (now : ℤ) (text : String) : List Fact → List Fact
  | [] => []
  | f :: rest =>
    if matchesFact text f then reinforceFact now f :: rest
    else f :: reinforceFirst now text rest

/-- `UserProfile._check_contradictions`.  The Anthropic call is modelled
by `oracleResponse` (`none` = the call raised).  Returns the contradicting
facts and the store as mutated by the `get_facts` read (status updates).
A fact contradicts when its text and the response text contain one
another (`fact["fact"] in result or result in fact["fact"]`). -/
def checkContradictions (now : ℤ) (oracleResponse : Option String)
    (facts : List Fact) : List Fact × List Fact :=
  let active := getFactsResults now lit03 facts
  let updated := updateStatuses now facts
  let contras : List Fact :=
    if active.isEmpty then []
    else
      match oracleResponse with
      | none => []
      | some r =>
        if r = "NONE" then []
        else (active.map (fun x => x.fact)).filter
          (fun f => isSubstringOf f.fact r || isSubstringOf r f.fact)
  (contras, updated)

/-- `UserProfile.add_fact`.  `newId` is the freshly drawn
`fact_{uuid.uuid4().hex[:8]}`.  A duplicate reinforces the first match and
changes nothing else; otherwise the contradiction check runs (with its
status side effect), each contradicting fact gains a back-reference to the
new id, and the new fact is appended. -/
def addFact (now : ℤ) (newId : String) (oracleResponse : Option String)
    (fact : String) (confidence : ℚ) (source : String)
    (facts : List Fact) : List Fact :=
  if facts.any (fun f => matchesFact fact f) then
    reinforceFirst now fact facts
  else
    let c := checkContradictions now oracleResponse facts
    let contradictionIds := c.1.map (fun f => f.id)
    let updated := c.2.map (fun f =>
      if f.id ∈ contradictionIds then
        { f with contradicts := f.contradicts ++ [newId] }
      else f)
    updated ++ [{
      id := newId,
      fact := fact,
      confidence := min confidence 1,
      source := source,
      learned := now,
      last_reinforced := some now,
      reinforcement_count := 0,
      status := .active,
      contradicts := contradictionIds }]

/-- `UserProfile.resolve_contradiction`: when both ids are present (and
distinct — the `elif` in the source never lets the same fact play both
roles), the removed fact is dropped, the kept fact loses the reference to
it, gains `0.2` confidence (capped) and a fresh decay clock.  Ids are
unique in any store produced by `addFact` with fresh ids, so taking the
first match mirrors the source. -/
def resolveContradiction (now : ℤ) (keepId removeId : String)
    (facts : List Fact) : List Fact :=
  if keepId = removeId then facts
  else
    match facts.find? (fun f => f.id == keepId),
        facts.find? (fun f => f.id == removeId) with
    | some keepFact, some _ =>
      (facts.filter (fun f => ¬(f.id = removeId))).map (fun f =>
        if f.id = keepFact.id then
          { f with
            contradicts := f.contradicts.filter (fun cid => ¬(cid = removeId)),
            confidence := min (fadd f.confidence lit02) 1,
            last_reinforced := some now }
        else f)
    | _, _ => facts

/-! ## `difflib.SequenceMatcher` (used by `RelationshipGraph._name_similarity`)

`SequenceMatcher(None, a, b).ratio()` for the short strings of this
program (`autojunk` never fires below 200 characters, and no junk
predicate is given): `find_longest_match` returns the longest block
`a[i:i+k] == b[j:j+k]`, ties broken by smallest `i`, then smallest `j`;
`get_matching_blocks` recurses on both sides of that block; `ratio` is
`2.0 * total_matched / (len(a) + len(b))`, and `1.0` when both strings
are empty.
-/

/-- `a[i:i+k] == b[j:j+k]` (the caller guarantees the ranges fit). -/
def segEq (a b : List Char) (i j k : ℕ) : Bool :=
  ((a.drop i).take k) == ((b.drop j).take k)

/-- Does a match of length `k` starting at `i` in `a` exist at some legal
position of `b[blo:bhi]`? -/
def hasMatchAt (a b : List Char) (blo bhi k i : ℕ) : Bool :=
  (List.range (bhi + 1)).any fun j =>
    decide (blo ≤ j) && decide (j + k ≤ bhi) && segEq a b i j k

/-- Does a matching block of length `k` exist inside
`a[alo:ahi] × b[blo:bhi]`? -/
def existsMatchK (a b : List Char) (alo ahi blo bhi k : ℕ) : Bool :=
  (List.range (ahi + 1)).any fun i =>
    decide (alo ≤ i) && decide (i + k ≤ ahi) && hasMatchAt a b blo bhi k i

/-- Length of the longest matching block in `a[alo:ahi] × b[blo:bhi]`,
searching downward from the candidate length. -/
def bestSizeAux (a b : List Char) (alo ahi blo bhi : ℕ) : ℕ → ℕ
  | 0 => 0
  | k + 1 =>
    if existsMatchK a b alo ahi blo bhi (k + 1) then k + 1
    else bestSizeAux a b alo ahi blo bhi k

/-- `SequenceMatcher.find_longest_match` on `a[alo:ahi] × b[blo:bhi]`
(no junk): the longest block, leftmost in `a`, then leftmost in `b`;
`(alo, blo, 0)` when nothing matches. -/
def findLongestMatch (a b : List Char) (alo ahi blo bhi : ℕ) : ℕ × ℕ × ℕ :=
  let k := bestSizeAux a b alo ahi blo bhi (min (ahi - alo) (bhi - blo))
  if k = 0 then (alo, blo, 0)
  else
    match (List.range (ahi + 1)).find? (fun i =>
        decide (alo ≤ i) && decide (i + k ≤ ahi) && hasMatchAt a b blo bhi k i) with
    | none => (alo, blo, 0)
    | some i =>
      match (List.range (bhi + 1)).find? (fun j =>
          decide (blo ≤ j) && decide (j + k ≤ bhi) && segEq a b i j k) with
      | none => (alo, blo, 0)
      | some j => (i, j, k)

/-- Total size of the matching blocks of `get_matching_blocks` (the
fuel strictly exceeds the recursion depth: each recursive call shrinks
the combined interval length). -/
def matchingTotalAux (a b : List Char) : ℕ → ℕ → ℕ → ℕ → ℕ → ℕ
  | 0, _, _, _, _ => 0
  | fuel + 1, alo, ahi, blo, bhi =>
    let t := findLongestMatch a b alo ahi blo bhi
    if t.2.2 = 0 then 0
    else
      t.2.2 + matchingTotalAux a b fuel alo t.1 blo t.2.1 +
        matchingTotalAux a b fuel (t.1 + t.2.2) ahi (t.2.1 + t.2.2) bhi

/-- Total matched size over the whole strings. -/
def matchingTotal (a b : List Char) : ℕ :=
  matchingTotalAux a b (a.length + b.length + 1) 0 a.length 0 b.length

/-- `SequenceMatcher.ratio()`: `2.0 * matches / total` as a Python float
(`1.0` when both strings are empty). -/
def ratioOf (a b : List Char) : ℚ :=
  let total := a.length + b.length
  if total = 0 then 1
  else fdiv (Rat.divInt (2 * matchingTotal a b) 1) (Rat.divInt total 1)

/-- `RelationshipGraph._name_similarity`:
`SequenceMatcher(None, name1.lower(), name2.lower()).ratio()`. -/
def nameSimilarity (name1 name2 : String) : ℚ :=
  ratioOf (pyLower name1).data (pyLower name2).data

/-! ## `src/memory/relationships.py` — the Relationship Graph

The `people` dict is a list of `Person` carrying its own dict key (dicts
iterate in insertion order); `pending_clarifications` is the queue of
`_add_pending_clarification`.
-/

/-- One entry of a person's `expected_visits`. -/
structure Visit where
  whenS : String
  note : Option String
  added : ℤ
deriving DecidableEq, Repr

/-- One entry of a person's `details`. -/
structure PersonDetail where
  fact : String
  confidence : ℚ
  learned : ℤ
deriving DecidableEq, Repr

/-- One person of the graph, as built by `RelationshipGraph.add_person`,
together with its key in the `people` dict. -/
structure Person where
  key : String
  id : String
  name : String
  aliases : List String
  relationship_type : String
  details : List PersonDetail
  first_mentioned : ℤ
  last_mentioned : ℤ
  mention_count : ℕ
  expected_visits : List Visit
  status : String
deriving DecidableEq, Repr

/-- One match entry returned by `find_by_name`. -/
structure NameMatch where
  key : String
  person : Person
  score : ℚ
  matched_on : String
deriving DecidableEq, Repr

/-- The match entries `find_by_name` collects for a single person: the
primary-name match short-circuits (`continue`); otherwise the first alias
at or above the threshold matches, and independently the substring
containment test appends a `0.8`-score `"partial"` entry. -/
def entriesForPerson (name : String) (threshold : ℚ) (p : Person) : List NameMatch :=
  if p.status = "removed" then []
  else
    let primaryScore := nameSimilarity name p.name
    if threshold ≤ primaryScore then [⟨p.key, p, primaryScore, "name"⟩]
    else
      let aliasEntry : List NameMatch :=
        match p.aliases.find? (fun al => decide (threshold ≤ nameSimilarity name al)) with
        | some al => [⟨p.key, p, nameSimilarity name al, al⟩]
        | none => []
      let partialEntry : List NameMatch :=
        if listInfix (pyLower name).data (pyLower p.name).data then
          [⟨p.key, p, lit08, "partial"⟩]
        else []
      aliasEntry ++ partialEntry

/-- `RelationshipGraph.find_by_name`: all match entries, sorted by score
descending. -/
def findByName (name : String) (threshold : ℚ) (people : List Person) : List NameMatch :=
  sortDescBy (fun m => m.score) (people.flatMap (entriesForPerson name threshold))

/-- One queued candidate inside a pending clarification. -/
structure ClarCandidate where
  key : String
  name : String
  relationship_type : String
deriving DecidableEq, Repr

/-- One entry of `pending_clarifications`. -/
structure PendingClarification where
  name : String
  matchList : List ClarCandidate
  added : ℤ
deriving DecidableEq, Repr

/-- The whole store of `RelationshipGraph`. -/
structure RelGraph where
  people : List Person
  pending_clarifications : List PendingClarification
deriving DecidableEq, Repr

/-- `RelationshipGraph.record_mention`. -/
def recordMention (now : ℤ) (key : String) (people : List Person) : List Person :=
  people.map fun p =>
    if p.key = key then
      { p with mention_count := p.mention_count + 1, last_mentioned := now }
    else p

/-- The `relationship_type` update of `RelationshipGraph.update_person`. -/
def updatePersonType (key rt : String) (people : List Person) : List Person :=
  people.map fun p => if p.key = key then { p with relationship_type := rt } else p

/-- Reinforce the first matching detail
(`existing["confidence"] = min(1.0, existing["confidence"] + 0.1)`). -/
def boostFirstDetail (detail : String) : List PersonDetail → List PersonDetail
  | [] => []
  | d :: ds =>
    if pyLower d.fact == pyLower detail then
      { d with confidence := min 1 (fadd d.confidence lit01) } :: ds
    else d :: boostFirstDetail detail ds

/-- `RelationshipGraph.add_detail` applied to one person. -/
def addDetailToPerson (now : ℤ) (detail : String) (confidence : ℚ) (p : Person) : Person :=
  if p.details.any (fun d => pyLower d.fact == pyLower detail) then
    { p with details := boostFirstDetail detail p.details }
  else
    { p with details := p.details ++ [⟨detail, confidence, now⟩] }

/-- `RelationshipGraph.add_detail` (with the default confidence `0.7`
used by `process_mention`). -/
def addDetail (now : ℤ) (key detail : String) (people : List Person) : List Person :=
  people.map fun p => if p.key = key then addDetailToPerson now detail lit07 p else p

/-- `RelationshipGraph.set_expected_visit` (with `note=None` as called
from `process_mention`). -/
def setExpectedVisit (now : ℤ) (key whenS : String) (people : List Person) : List Person :=
  people.map fun p =>
    if p.key = key then
      { p with expected_visits := p.expected_visits ++ [⟨whenS, none, now⟩] }
    else p

/-- `RelationshipGraph._generate_key`: lower-cased name with spaces as
underscores, suffixed with the relationship type; `freshSuffix` stands for
the `uuid4` draw used on collision. -/
def generateKey (name rt : String) (people : List Person) (freshSuffix : String) : String :=
  let base := String.mk ((pyLower name).data.map fun c => if c = ' ' then '_' else c) ++
    "_" ++ rt
  if people.any (fun p => p.key == base) then base ++ "_" ++ freshSuffix else base

/-- `RelationshipGraph.add_person` (aliases default to `[]` as called from
`process_mention`); returns the new key and the new graph.  `newPersonId`
stands for the drawn `person_{uuid}`. -/
def addPerson (now : ℤ) (newPersonId freshSuffix : String) (name rt : String)
    (details : List String) (g : RelGraph) : String × RelGraph :=
  let key := generateKey name rt g.people freshSuffix
  (key, { g with people := g.people ++ [{
    key := key,
    id := newPersonId,
    name := name,
    aliases := [],
    relationship_type := rt,
    details := details.map (fun d => ⟨d, lit07, now⟩),
    first_mentioned := now,
    last_mentioned := now,
    mention_count := 1,
    expected_visits := [],
    status := "active" }] })

/-- `RelationshipGraph._auto_resolve`: relationship-type hint, then
mentioned within seven days (`last_mentioned > week_ago`), then expected
visits; each heuristic resolves only when it singles out exactly one
match. -/
def autoResolve (now : ℤ) (ms : List NameMatch)
    (relationshipHint : Option String) : Option NameMatch :=
  let weekAgo : ℤ := now - 7 * 86400
  let h1 : Option NameMatch :=
    match relationshipHint with
    | some h =>
      let tm := ms.filter fun m => m.person.relationship_type == h
      if tm.length = 1 then tm.head? else none
    | none => none
  match h1 with
  | some m => some m
  | none =>
    let rm := ms.filter fun m => decide (weekAgo < m.person.last_mentioned)
    if rm.length = 1 then rm.head?
    else
      let vm := ms.filter fun m => !m.person.expected_visits.isEmpty
      if vm.length = 1 then vm.head? else none

/-- `RelationshipGraph._add_pending_clarification`: drop older
clarifications for the same (case-insensitive) name, then queue one entry
summarising the matches. -/
def addPendingClarification (now : ℤ) (name : String) (ms : List NameMatch)
    (g : RelGraph) : RelGraph :=
  { g with pending_clarifications :=
      (g.pending_clarifications.filter fun c => !(pyLower c.name == pyLower name)) ++
      [⟨name, ms.map (fun m => ⟨m.key, m.person.name, m.person.relationship_type⟩),
        now⟩] }

/-- The result dictionary of `process_mention`. -/
structure MentionResult where
  action : String
  key : Option String
  matchList : List NameMatch
deriving DecidableEq, Repr

/-- The update sequence shared by the single-match and auto-resolved
branches of `process_mention`. -/
def applyMentionUpdates (now : ℤ) (key : String) (relationshipType : Option String)
    (details : List String) (visiting : Bool) (visitTime : Option String)
    (g : RelGraph) : RelGraph :=
  let g1 := { g with people := recordMention now key g.people }
  let g2 :=
    match relationshipType with
    | some rt =>
      if rt ≠ "acquaintance" then { g1 with people := updatePersonType key rt g1.people }
      else g1
    | none => g1
  let g3 := details.foldl (fun acc d => { acc with people := addDetail now key d acc.people }) g2
  if visiting then
    { g3 with people := setExpectedVisit now key (visitTime.getD "soon") g3.people }
  else g3

/-- `RelationshipGraph.process_mention`.  `newPersonId`/`freshSuffix`
stand for the uuid draws of the creation branch. -/
def processMention (now : ℤ) (newPersonId freshSuffix : String) (name : String)
    (relationshipType : Option String) (details : List String) (visiting : Bool)
    (visitTime : Option String) (g : RelGraph) : MentionResult × RelGraph :=
  let found := findByName name lit07 g.people
  match found with
  | [] =>
    let r := addPerson now newPersonId freshSuffix name
      (relationshipType.getD "acquaintance") details g
    let g2 :=
      if visiting then
        { r.2 with people := setExpectedVisit now r.1 (visitTime.getD "soon") r.2.people }
      else r.2
    (⟨"created", some r.1, []⟩, g2)
  | [m] =>
    (⟨"updated", some m.key, []⟩,
      applyMentionUpdates now m.key relationshipType details visiting visitTime g)
  | _ =>
    match autoResolve now found relationshipType with
    | some m =>
      (⟨"updated", some m.key, []⟩,
        applyMentionUpdates now m.key relationshipType details visiting visitTime g)
    | none =>
      (⟨"ambiguous", none, found⟩, addPendingClarification now name found g)

/-! ## `src/context/patterns.py` — the pattern detector

Door events carry the fields of the `datetime` objects that
`analyze_door_events` reads (`weekday()`, `hour`, `minute`) together with
the instant `abs` (for `min`/`max`/ordering).  The user-profile `routines`
dict — the promotion target of `_promote_patterns` — is part of the state.
-/

/-- A door event (`datetime`): `weekday` as in `datetime.weekday()`
(0 = Monday), plus the instant for comparisons. -/
structure DoorEvent where
  weekday : ℕ
  hour : ℕ
  minute : ℕ
  abs : ℤ
deriving DecidableEq, Repr

/-- `PatternDetector._day_type`: `"weekend"` iff `weekday() >= 5`. -/
def isWeekend (e : DoorEvent) : Bool := 5 ≤ e.weekday

/-- Two-digit decimal rendering, Python `f"{n:02d}"` for `n < 100`
(every hour and minute of the program). -/
def twoDigits (n : ℕ) : String :=
  String.mk [Char.ofNat (48 + (n / 10) % 10), Char.ofNat (48 + n % 10)]

/-- `PatternDetector._time_bucket`: the half-hour bucket string
`f"{hour:02d}:{(minute // 30) * 30:02d}"`. -/
def timeBucket (e : DoorEvent) : String :=
  twoDigits e.hour ++ ":" ++ twoDigits ((e.minute / 30) * 30)

/-- A stored door pattern.  Dictionaries built by `analyze_door_events`
have no `promoted` key, so `pattern.get("promoted")` is falsy: `promoted`
starts out `false`. -/
structure Pattern where
  type : String
  time_bucket : String
  observations : ℕ
  confidence : ℚ
  description : String
  first_observed : ℤ
  last_observed : ℤ
  promoted : Bool
  promoted_date : Option ℤ
deriving DecidableEq, Repr

/-- `min(bucket_events)` of the source, on the instants. -/
def minAbs : List DoorEvent → ℤ
  | [] => 0
  | e :: rest => rest.foldl (fun a x => min a x.abs) e.abs

/-- `max(bucket_events)` of the source, on the instants. -/
def maxAbs : List DoorEvent → ℤ
  | [] => 0
  | e :: rest => rest.foldl (fun a x => max a x.abs) e.abs

/-- The `min(len/10, 1.0)` confidence formula (float division, exact
`min`). -/
def patternConfidence (n : ℕ) : ℚ := min (fdiv (Rat.divInt n 1) 10) 1

/-- The distinct bucket keys of a `defaultdict(list)` grouping, in first-
appearance order. -/
def bucketKeys (evs : List DoorEvent) : List String :=
  evs.foldl (fun acc e => if timeBucket e ∈ acc then acc else acc ++ [timeBucket e]) []

/-- The per-bucket activity patterns (`weekday_activity` /
`weekend_activity`) over an already day-type-filtered event list. -/
def activityPatterns (tname dayName : String) (evs : List DoorEvent) : List Pattern :=
  (bucketKeys evs).filterMap fun b =>
    let bevs := evs.filter fun e => timeBucket e == b
    if 5 ≤ bevs.length then
      some {
        type := tname,
        time_bucket := b,
        observations := bevs.length,
        confidence := patternConfidence bevs.length,
        description := "Activity around " ++ b ++ " on " ++ dayName,
        first_observed := minAbs bevs,
        last_observed := maxAbs bevs,
        promoted := false,
        promoted_date := none }
    else none

/-- The `avg_time` string of the morning/evening patterns:
`avg_hour = sum(e.hour + e.minute / 60 ...) / len(...)` in float
arithmetic (left-to-right `sum`), then
`f"{int(avg_hour):02d}:{int((avg_hour % 1) * 60):02d}"`.  `x % 1` of a
non-negative float is its exact fractional part. -/
def avgTimeString (evs : List DoorEvent) : String :=
  let total : ℚ := evs.foldl
    (fun acc e => fadd acc (fadd (Rat.divInt e.hour 1) (fdiv (Rat.divInt e.minute 1) 60))) 0
  let avg : ℚ := fdiv total (Rat.divInt evs.length 1)
  let frac : ℚ := qsub avg (Rat.divInt avg.floor 1)
  twoDigits avg.floor.toNat ++ ":" ++ twoDigits (fmul frac 60).floor.toNat

/-- An averaged departure/arrival pattern over an hour window of weekday
events (`morning_departure` 7–10, `evening_arrival` 17–20). -/
def windowPattern (tname verb timeOfDay : String) (loHour hiHour : ℕ)
    (events : List DoorEvent) : List Pattern :=
  let wevs := events.filter fun e =>
    !isWeekend e && decide (loHour ≤ e.hour) && decide (e.hour ≤ hiHour)
  if 5 ≤ wevs.length then
    let avg := avgTimeString wevs
    [{ type := tname,
       time_bucket := avg,
       observations := wevs.length,
       confidence := patternConfidence wevs.length,
       description := "Typically " ++ verb ++ " around " ++ avg ++ " on weekday " ++ timeOfDay,
       first_observed := minAbs wevs,
       last_observed := maxAbs wevs,
       promoted := false,
       promoted_date := none }]
  else []

/-- The `night_owl` pattern (`hour >= 23 or hour < 4`). -/
def nightPattern (events : List DoorEvent) : List Pattern :=
  let nevs := events.filter fun e => decide (23 ≤ e.hour) || decide (e.hour < 4)
  if 5 ≤ nevs.length then
    [{ type := "night_owl",
       time_bucket := "late",
       observations := nevs.length,
       confidence := patternConfidence nevs.length,
       description := "Often active late at night",
       first_observed := minAbs nevs,
       last_observed := maxAbs nevs,
       promoted := false,
       promoted_date := none }]
  else []

/-- `PatternDetector.analyze_door_events`: nothing below
`MIN_OBSERVATIONS = 5` total events; otherwise bucket activity patterns
(weekday then weekend), morning departure, evening arrival, night owl. -/
def analyzeDoorEvents (events : List DoorEvent) : List Pattern :=
  if events.length < 5 then []
  else
    activityPatterns "weekday_activity" "weekdays" (events.filter fun e => !isWeekend e) ++
    activityPatterns "weekend_activity" "weekends" (events.filter fun e => isWeekend e) ++
    windowPattern "morning_departure" "leaves" "mornings" 7 10 events ++
    windowPattern "evening_arrival" "arrives" "evenings" 17 20 events ++
    nightPattern events

/-- One routine of the user profile (`profile.add_routine` target),
keyed by the dict key. -/
structure RoutineEntry where
  key : String
  value : String
  source : String
  updated : ℤ
deriving DecidableEq, Repr

/-- `UserProfile.add_routine`: dict assignment — overwrite in place or
append. -/
def addRoutine (now : ℤ) (key value source : String)
    (routines : List RoutineEntry) : List RoutineEntry :=
  if routines.any (fun r => r.key == key) then
    routines.map fun r => if r.key == key then ⟨key, value, source, now⟩ else r
  else routines ++ [⟨key, value, source, now⟩]

/-- The state touched by `PatternDetector.update_patterns`: the stored
door patterns, `last_analysis`, and the profile `routines` dict that
`_promote_patterns` writes to. -/
structure PatternsState where
  door_patterns : List Pattern
  last_analysis : Option ℤ
  routines : List RoutineEntry
deriving DecidableEq, Repr

/-- `_find_pattern` matched against a fresh pattern (same `type` and
`time_bucket`; every pattern kind sets a non-`None` bucket). -/
def samePattern (np p : Pattern) : Bool :=
  p.type == np.type && p.time_bucket == np.time_bucket

/-- The in-place update of the first matching stored pattern:
`observations`, `confidence` and `last_observed` are overwritten; the
`promoted` flag and `first_observed` are not. -/
def updateFirstPattern (np : Pattern) : List Pattern → List Pattern
  | [] => []
  | p :: ps =>
    if samePattern np p then
      { p with
        observations := np.observations,
        confidence := np.confidence,
        last_observed := np.last_observed } :: ps
    else p :: updateFirstPattern np ps

/-- One step of the `_promote_patterns` loop: skip already-promoted
patterns; promote when `confidence >= 0.6` and `observations >= 5`,
reporting the routine to add. -/
def promoteOne (now : ℤ) (p : Pattern) : Pattern × Option (String × String) :=
  if p.promoted then (p, none)
  else if lit06 ≤ p.confidence ∧ 5 ≤ p.observations then
    ({ p with promoted := true, promoted_date := some now },
      some (p.type, p.description))
  else (p, none)

/-- `PatternDetector._promote_patterns`: walk the stored patterns in
order, adding a routine keyed by the pattern type for each fresh
promotion.  The second component lists the promoted pattern types (the
log line of the source), derivable from the `promoted` flags. -/
def promotePatterns (now : ℤ) (s : PatternsState) : PatternsState × List String :=
  let pats := s.door_patterns.map fun p => (promoteOne now p).1
  let fired := s.door_patterns.filterMap fun p => (promoteOne now p).2
  let routines := fired.foldl
    (fun acc kv => addRoutine now kv.1 kv.2 "door_pattern" acc) s.routines
  ({ s with door_patterns := pats, routines := routines }, fired.map fun kv => kv.1)

/-- `PatternDetector.update_patterns`: analyze, merge into the stored
patterns (update the first match in place, else append), stamp
`last_analysis`, then promote.  Returns the state, the fresh analysis
(the return value of the source) and the list of newly promoted types. -/
def updatePatterns (now : ℤ) (events : List DoorEvent) (s : PatternsState) :
    PatternsState × List Pattern × List String :=
  let newPatterns := analyzeDoorEvents events
  let pats := newPatterns.foldl
    (fun acc np => if acc.any (samePattern np) then updateFirstPattern np acc else acc ++ [np])
    s.door_patterns
  let r := promotePatterns now { s with door_patterns := pats, last_analysis := some now }
  (r.1, newPatterns, r.2)

/-! ## `src/memory/consolidation.py` — the consolidator -/

/-- A parsed JSON value (`json.loads` output). -/
inductive JValue where
  | null
  | bool (b : Bool)
  | num (q : ℚ)
  | str (s : String)
  | arr (xs : List JValue)
  | obj (fields : List (String × JValue))

/-- `dict.get(k)` on a parsed object: `null` stands for Python `None`. -/
def jGet (fields : List (String × JValue)) (k : String) : JValue :=
  match fields.find? (fun f => f.1 == k) with
  | some f => f.2
  | none => .null

/-- `dict.get(k, default)` on a parsed object. -/
def jGetD (fields : List (String × JValue)) (k : String) (d : JValue) : JValue :=
  match fields.find? (fun f => f.1 == k) with
  | some f => f.2
  | none => d

/-- The stored Understanding (`understanding.json`). -/
structure Understanding where
  last_consolidated : Option ℤ
  personality_sketch : JValue
  current_situation : JValue
  communication_notes : JValue
  themes : JValue
  open_questions : JValue

/-- `MemoryConsolidator._default_understanding`. -/
def defaultUnderstanding : Understanding :=
  ⟨none, .null, .null, .null, .arr [], .arr []⟩

/-- The outcome of the Anthropic call in `consolidate`: the call raised,
or the (markdown-stripped) response text failed `json.loads`, or it
parsed to `v`. -/
inductive OracleOutcome where
  | failure
  | unparseable
  | parsed (v : JValue)

/-- The part of `_gather_context` that counts toward `total_items`
(`preferences`/`routines`/`interests` only shape the prompt text). -/
structure ConsContext where
  facts : List String
  patterns : List String
  conversations : List String
deriving DecidableEq, Repr

/-- `MemoryConsolidator.consolidate`.  Returns the success flag and the
stored Understanding.  A parsed non-object raises `AttributeError` at the
first `.get` (caught by the blanket `except`), before any field of
`self._data` is assigned. -/
def consolidate (now : ℤ) (hasApiKey : Bool) (ctx : ConsContext)
    (outcome : OracleOutcome) (u : Understanding) : Bool × Understanding :=
  if !hasApiKey then (false, u)
  else
    let totalItems := ctx.facts.length + ctx.patterns.length + ctx.conversations.length
    if totalItems < 3 then (false, u)
    else
      match outcome with
      | .failure => (false, u)
      | .unparseable => (false, u)
      | .parsed v =>
        match v with
        | .obj fields =>
          (true, {
            last_consolidated := some now,
            personality_sketch := jGet fields "personality_sketch",
            current_situation := jGet fields "current_situation",
            communication_notes := jGet fields "communication_notes",
            themes := jGetD fields "themes" (.arr []),
            open_questions := jGetD fields "open_questions" (.arr []) })
        | _ => (false, u)

/-! ## Concrete instances used by witnesses and counterexamples -/

/-- A learned fact as `add_fact("…", 0.7)` stores it at instant `t`. -/
def mkFact (id text : String) (conf : ℚ) (t : ℤ) : Fact :=
  { id := id, fact := text, confidence := conf, source := "conversation",
    learned := t, last_reinforced := some t, reinforcement_count := 0,
    status := .active, contradicts := [] }

/-- A fact whose stored status is `forgotten` but whose decay clock was
reset (its effective confidence is `0.9` again). -/
def revivedFact : Fact :=
  { mkFact "fact_rv" "plays chess" lit09 0 with status := .forgotten }

/-- "Marcus from Brooklyn", known under the alias "Marcus", last mentioned
long ago, no expected visits. -/
def marcusPerson : Person :=
  { key := "marcus_from_brooklyn_friend", id := "person_m1",
    name := "Marcus from Brooklyn", aliases := ["Marcus"],
    relationship_type := "friend", details := [], first_mentioned := 0,
    last_mentioned := 0, mention_count := 1, expected_visits := [],
    status := "active" }

/-- An "Anna" who is a friend (for the two-candidates scenario). -/
def annaFriend : Person :=
  { key := "anna_friend", id := "person_a1", name := "Anna", aliases := [],
    relationship_type := "friend", details := [], first_mentioned := 0,
    last_mentioned := 0, mention_count := 1, expected_visits := [],
    status := "active" }

/-- An "Anna" who is a colleague. -/
def annaColleague : Person :=
  { key := "anna_colleague", id := "person_a2", name := "Anna", aliases := [],
    relationship_type := "colleague", details := [], first_mentioned := 0,
    last_mentioned := 0, mention_count := 1, expected_visits := [],
    status := "active" }

/-- Six weekday-morning door events in six distinct half-hour buckets
(7:00, 7:30, 8:00, 8:30, 9:00, 9:30). -/
def morningEvents6 : List DoorEvent :=
  [⟨0, 7, 0, 0⟩, ⟨1, 7, 30, 1⟩, ⟨2, 8, 0, 2⟩, ⟨3, 8, 30, 3⟩, ⟨4, 9, 0, 4⟩, ⟨0, 9, 30, 5⟩]

/-- The first five of `morningEvents6`. -/
def morningEvents5 : List DoorEvent :=
  [⟨0, 7, 0, 0⟩, ⟨1, 7, 30, 1⟩, ⟨2, 8, 0, 2⟩, ⟨3, 8, 30, 3⟩, ⟨4, 9, 0, 4⟩]

/-- Eight weekday events inside the 8:00 half-hour bucket. -/
def busyEvents8 : List DoorEvent :=
  [⟨0, 8, 0, 0⟩, ⟨0, 8, 1, 1⟩, ⟨0, 8, 2, 2⟩, ⟨0, 8, 3, 3⟩,
   ⟨0, 8, 4, 4⟩, ⟨0, 8, 5, 5⟩, ⟨0, 8, 6, 6⟩, ⟨0, 8, 7, 7⟩]

/-- Five weekday events inside the 8:00 half-hour bucket (a later, thinner
window). -/
def busyEvents5 : List DoorEvent :=
  [⟨0, 8, 0, 0⟩, ⟨0, 8, 1, 1⟩, ⟨0, 8, 2, 2⟩, ⟨0, 8, 3, 3⟩, ⟨0, 8, 4, 4⟩]

/-- A stored, not yet promoted morning-departure pattern meeting both
promotion thresholds. -/
def qualifyingPattern : Pattern :=
  { type := "morning_departure", time_bucket := "08:15", observations := 6,
    confidence := lit06, description := "Typically leaves around 08:15 on weekday mornings",
    first_observed := 0, last_observed := 5, promoted := false, promoted_date := none }

/-- A detector state holding just `qualifyingPattern`. -/
def qualifyingState : PatternsState :=
  { door_patterns := [qualifyingPattern], last_analysis := none, routines := [] }

/-- The confidence-matches-count invariant of the pattern store. -/
def ConfidenceInvariant (pats : List Pattern) : Prop :=
  ∀ p ∈ pats, p.confidence = patternConfidence p.observations

/-- The two-fact base store for the contradiction scenarios: facts "x"
and "y", no links yet. -/
def baseStore : List Fact :=
  addFact 0 "fact_b" none "y" lit07 "conversation"
    (addFact 0 "fact_a" none "x" lit07 "conversation" [])

/-- Symmetric, dangling-free contradiction links with unique ids. -/
def ContradictionInvariant (facts : List Fact) : Prop :=
  (facts.map fun f => f.id).Nodup ∧
  ∀ f ∈ facts, ∀ c ∈ f.contradicts, ∃ g ∈ facts, g.id = c ∧ f.id ∈ g.contradicts

/-- The id/contradicts-preserving correspondence between two stores. -/
def FactShape (a b : Fact) : Prop := b.id = a.id ∧ b.contradicts = a.contradicts

/-! ## Theorems -/
theorem num_eq_mul_den (a : ℚ) : (a.num : ℚ) = a * (a.den : ℚ) := by
  rw [← div_eq_iff (by positivity : ((a.den : ℚ)) ≠ 0), Rat.num_div_den]

theorem qadd_eq (a b : ℚ) : qadd a b = a + b := by
  have ha : ((a.den : ℚ)) ≠ 0 := by positivity
  have hb : ((b.den : ℚ)) ≠ 0 := by positivity
  rw [qadd, Rat.divInt_eq_div]
  push_cast
  field_simp
  rw [num_eq_mul_den a, num_eq_mul_den b]
  ring

theorem qsub_eq (a b : ℚ) : qsub a b = a - b := by
  have ha : ((a.den : ℚ)) ≠ 0 := by positivity
  have hb : ((b.den : ℚ)) ≠ 0 := by positivity
  rw [qsub, Rat.divInt_eq_div]
  push_cast
  field_simp
  rw [num_eq_mul_den a, num_eq_mul_den b]
  ring

theorem qmul_eq (a b : ℚ) : qmul a b = a * b := by
  have ha : ((a.den : ℚ)) ≠ 0 := by positivity
  have hb : ((b.den : ℚ)) ≠ 0 := by positivity
  rw [qmul, Rat.divInt_eq_div]
  push_cast
  field_simp
  rw [num_eq_mul_den a, num_eq_mul_den b]
  ring

theorem qdiv_eq (a b : ℚ) : qdiv a b = a / b := by
  by_cases hb0 : b = 0
  · subst hb0
    rw [qdiv]
    simp [Rat.num_div_den]
  · have ha : ((a.den : ℚ)) ≠ 0 := by positivity
    have hb : ((b.den : ℚ)) ≠ 0 := by positivity
    have hbn : ((b.num : ℚ)) ≠ 0 := by
      simpa using (Rat.num_ne_zero).mpr hb0
    rw [qdiv, Rat.divInt_eq_div]
    push_cast
    field_simp
    rw [num_eq_mul_den a, num_eq_mul_den b]
    ring

/-! ## Helper lemmas -/
theorem mem_insDescBy (key : α → ℚ) (x y : α) (l : List α) :
    y ∈ insDescBy key x l ↔ y = x ∨ y ∈ l := by
  induction l with
  | nil => simp [insDescBy]
  | cons z zs ih =>
    rw [insDescBy]
    by_cases h : key x ≤ key z
    · rw [if_pos h, List.mem_cons, ih, List.mem_cons]
      tauto
    · rw [if_neg h]
      exact List.mem_cons

theorem mem_foldl_insDescBy (key : α → ℚ) (l acc : List α) (y : α) :
    y ∈ l.foldl (fun acc x => insDescBy key x acc) acc ↔ y ∈ acc ∨ y ∈ l := by
  induction l generalizing acc with
  | nil => simp
  | cons z zs ih =>
    simp only [List.foldl_cons, ih, mem_insDescBy, List.mem_cons]
    tauto

theorem mem_sortDescBy (key : α → ℚ) (l : List α) (y : α) :
    y ∈ sortDescBy key l ↔ y ∈ l := by
  simp [sortDescBy, mem_foldl_insDescBy]

theorem pairwise_insDescBy (key : α → ℚ) (x : α) (l : List α)
    (h : l.Pairwise fun a b => key b ≤ key a) :
    (insDescBy key x l).Pairwise fun a b => key b ≤ key a := by
  induction l with
  | nil => simp [insDescBy]
  | cons z zs ih =>
    rw [List.pairwise_cons] at h
    rw [insDescBy]
    by_cases hc : key x ≤ key z
    · rw [if_pos hc, List.pairwise_cons]
      constructor
      · intro b hb
        rcases (mem_insDescBy key x b zs).mp hb with rfl | hb
        · exact hc
        · exact h.1 b hb
      · exact ih h.2
    · rw [if_neg hc, List.pairwise_cons]
      have hzx : key z ≤ key x := le_of_lt (lt_of_not_ge hc)
      constructor
      · intro b hb
        rcases List.mem_cons.mp hb with rfl | hb
        · exact hzx
        · exact le_trans (h.1 b hb) hzx
      · exact List.pairwise_cons.mpr h

theorem pairwise_sortDescBy (key : α → ℚ) (l : List α) :
    (sortDescBy key l).Pairwise fun a b => key b ≤ key a := by
  rw [sortDescBy]
  have main : ∀ (l acc : List α), (acc.Pairwise fun a b => key b ≤ key a) →
      (l.foldl (fun acc x => insDescBy key x acc) acc).Pairwise fun a b => key b ≤ key a := by
    intro l
    induction l with
    | nil => intro acc h; simpa
    | cons z zs ih => intro acc h; exact ih _ (pairwise_insDescBy key z acc h)
  exact main l [] (by simp)

theorem filter_not_filter (p : α → Bool) (l : List α) :
    ((l.filter fun a => !(p a)).filter p) = [] := by
  induction l with
  | nil => rfl
  | cons z zs ih =>
    by_cases hz : p z = true
    · simp [List.filter, hz, ih]
    · rw [Bool.not_eq_true] at hz
      simp [List.filter, hz, ih]

/-- `find_longest_match` on identical non-empty intervals returns the
whole interval. -/
theorem findLongestMatch_self (a : List Char) (n : ℕ) :
    findLongestMatch a a 0 (n + 1) 0 (n + 1) = (0, 0, n + 1) := by
  have hseg : segEq a a 0 0 (n + 1) = true := by
    simp [segEq]
  have hhas : hasMatchAt a a 0 (n + 1) (n + 1) 0 = true := by
    rw [hasMatchAt, List.any_eq_true]
    exact ⟨0, by simp [hseg]⟩
  have hex : existsMatchK a a 0 (n + 1) 0 (n + 1) (n + 1) = true := by
    rw [existsMatchK, List.any_eq_true]
    exact ⟨0, by simp [hhas]⟩
  have hbest : bestSizeAux a a 0 (n + 1) 0 (n + 1) ((n + 1 - 0) ⊓ (n + 1 - 0)) = n + 1 := by
    simp only [Nat.sub_zero, Nat.min_self]
    rw [bestSizeAux, hex]
    simp
  have hfind1 : (List.range (n + 1 + 1)).find? (fun i =>
      decide (0 ≤ i) && decide (i + (n + 1) ≤ n + 1) &&
        hasMatchAt a a 0 (n + 1) (n + 1) i) = some 0 := by
    rw [List.range_succ_eq_map]
    exact List.find?_cons_of_pos _ (by simp [hhas])
  have hfind2 : (List.range (n + 1 + 1)).find? (fun j =>
      decide (0 ≤ j) && decide (j + (n + 1) ≤ n + 1) && segEq a a 0 j (n + 1)) =
      some 0 := by
    rw [List.range_succ_eq_map]
    exact List.find?_cons_of_pos _ (by simp [hseg])
  rw [findLongestMatch]
  rw [hbest]
  rw [if_neg (Nat.succ_ne_zero n)]
  rw [hfind1]
  simp only [hfind2]

/-- Recursing on an empty interval matches nothing. -/
theorem matchingTotalAux_empty (a b : List Char) (fuel x y : ℕ) :
    matchingTotalAux a b fuel x x y y = 0 := by
  cases fuel with
  | zero => rfl
  | succ m =>
    rw [matchingTotalAux]
    have h : findLongestMatch a b x x y y = (x, y, 0) := by
      rw [findLongestMatch]
      simp [bestSizeAux]
    rw [h]
    simp

/-- The matching blocks of a string against itself cover it entirely. -/
theorem matchingTotal_self (a : List Char) : matchingTotal a a = a.length := by
  rw [matchingTotal]
  cases han : a.length with
  | zero => exact matchingTotalAux_empty a a _ 0 0
  | succ n =>
    rw [matchingTotalAux, findLongestMatch_self a n]
    have h1 : matchingTotalAux a a (n + 1 + (n + 1)) 0 0 0 0 = 0 :=
      matchingTotalAux_empty a a _ 0 0
    have h2 : matchingTotalAux a a (n + 1 + (n + 1)) (0 + (n + 1)) (n + 1)
        (0 + (n + 1)) (n + 1) = 0 := by
      simpa using matchingTotalAux_empty a a (n + 1 + (n + 1)) (n + 1) (n + 1)
    simp only [Nat.succ_ne_zero, if_false, h1, h2]

theorem fl_one : fl 1 = 1 := by decide

/-- `SequenceMatcher.ratio()` of a string against itself is `1.0`. -/
theorem ratioOf_self (a : List Char) : ratioOf a a = 1 := by
  simp only [ratioOf]
  cases han : a.length with
  | zero => simp
  | succ n =>
    have hne : ¬(n + 1 + (n + 1) = 0) := by omega
    rw [if_neg hne, matchingTotal_self, han, fdiv]
    have hq : qdiv (Rat.divInt (2 * ((n + 1 : ℕ) : ℤ)) 1)
        (Rat.divInt (((n + 1) + (n + 1) : ℕ) : ℤ) 1) = 1 := by
      rw [qdiv_eq, Rat.divInt_eq_div, Rat.divInt_eq_div]
      push_cast
      rw [div_one, div_one]
      have h2 : ((n : ℚ) + 1 + (n + 1)) ≠ 0 := by positivity
      rw [div_eq_one_iff_eq h2]
      ring
    rw [hq, fl_one]

/-- `_name_similarity` of a name against itself is `1.0`. -/
theorem nameSimilarity_self (s : String) : nameSimilarity s s = 1 :=
  ratioOf_self _

/-! ## The claims -/

/-- C2: under the decay constants (0.1/week, thresholds 0.3 and 0.1) and
the `< threshold` status rule, a fact of base confidence `0.7` with no
reinforcement is, as recomputed by `get_facts`, still `active` at 27 days,
`faded` at exactly 4 weeks, and `forgotten` at exactly 6 weeks.  In
binary64 arithmetic the effective confidence at 28 days is one ulp below
the float `0.3` (and at 42 days one ulp below the float `0.1`), so both
boundary classifications land exactly as the spec states. -/
theorem alfred_c2 (t : ℤ) (minConf : ℚ) (f : Fact)
    (hconf : f.confidence = lit07)
    (href : f.last_reinforced = some t)
    (hstatus : f.status ≠ .forgotten) :
    ((getFacts (t + 27 * 86400) minConf [f]).2.map fun g => g.status) = [.active] ∧
    ((getFacts (t + 28 * 86400) minConf [f]).2.map fun g => g.status) = [.faded] ∧
    ((getFacts (t + 41 * 86400) minConf [f]).2.map fun g => g.status) = [.faded] ∧
    ((getFacts (t + 42 * 86400) minConf [f]).2.map fun g => g.status) = [.forgotten] ∧
    calculateEffectiveConfidence (t + 28 * 86400) f = fsub lit07 (fmul 4 lit01) ∧
    lit01 ≤ calculateEffectiveConfidence (t + 28 * 86400) f ∧
    calculateEffectiveConfidence (t + 28 * 86400) f < lit03 ∧
    calculateEffectiveConfidence (t + 42 * 86400) f < lit01 := by
  have heff : ∀ d : ℤ,
      calculateEffectiveConfidence (t + d) f =
      max 0 (min 1 (fsub lit07 (fmul (fdiv (Rat.divInt (d.fdiv 86400) 1) 7) lit01))) := by
    intro d
    rw [calculateEffectiveConfidence, href]
    simp only [Option.getD_some]
    rw [hconf]
    have harith : t + d - t = d := by ring
    rw [harith]
  refine ⟨?_, ?_, ?_, ?_, ?_, ?_, ?_, ?_⟩ <;>
    simp only [getFacts, updateStatuses, List.map_cons, List.map_nil, if_neg hstatus, heff] <;>
    decide

/-- C2 witness at `t = 0` on a concrete fact. -/
theorem alfred_c2_witness :
    ((getFacts (0 + 28 * 86400) lit05 [mkFact "fact_j" "likes jazz" lit07 0]).2.map
      fun g => g.status) = [.faded] ∧
    ((getFacts (0 + 42 * 86400) lit05 [mkFact "fact_j" "likes jazz" lit07 0]).2.map
      fun g => g.status) = [.forgotten] := by
  have h := alfred_c2 0 lit05 (mkFact "fact_j" "likes jazz" lit07 0)
    (by decide) (by decide) (by decide)
  exact ⟨h.2.1, h.2.2.2.1⟩

/-- C3 (amended): `get_facts` never deletes — the stored list keeps its
length and ids — and recomputes status and effective confidence at call
time for every fact *not already marked `forgotten`*; facts whose stored
status is `forgotten` are skipped before recomputation: they pass through
untouched (and, as the counterexample shows, are not returned even when
their decay clock was reset by reinforcement). -/
theorem alfred_c3 (now : ℤ) (minConf : ℚ) (facts : List Fact) :
    (getFacts now minConf facts).2.length = facts.length ∧
    ((getFacts now minConf facts).2.map fun f => f.id) = (facts.map fun f => f.id) ∧
    (∀ f ∈ facts, f.status = .forgotten → f ∈ (getFacts now minConf facts).2) ∧
    (∀ f ∈ facts, f.status ≠ .forgotten →
      ({ f with status := statusFromConfidence (calculateEffectiveConfidence now f) } : Fact) ∈
        (getFacts now minConf facts).2) ∧
    (∀ r ∈ (getFacts now minConf facts).1, ∃ f ∈ facts, f.status ≠ .forgotten ∧
      r.fact = { f with status := statusFromConfidence (calculateEffectiveConfidence now f) } ∧
      r.effective_confidence = calculateEffectiveConfidence now f ∧
      minConf ≤ calculateEffectiveConfidence now f) ∧
    (∀ f ∈ facts, f.status ≠ .forgotten → minConf ≤ calculateEffectiveConfidence now f →
      (⟨{ f with status := statusFromConfidence (calculateEffectiveConfidence now f) },
        calculateEffectiveConfidence now f⟩ : FactR) ∈ (getFacts now minConf facts).1) := by
  refine ⟨?_, ?_, ?_, ?_, ?_, ?_⟩
  · simp [getFacts, updateStatuses]
  · rw [getFacts]
    simp only [updateStatuses, List.map_map]
    apply List.map_congr_left
    intro f _
    by_cases h : f.status = FactStatus.forgotten
    · rw [Function.comp_apply, if_pos h]
    · rw [Function.comp_apply, if_neg h]
  · intro f hf hst
    simp only [getFacts, updateStatuses]
    exact List.mem_map.mpr ⟨f, hf, by rw [if_pos hst]⟩
  · intro f hf hst
    simp only [getFacts, updateStatuses]
    exact List.mem_map.mpr ⟨f, hf, by rw [if_neg hst]⟩
  · intro r hr
    rw [getFacts] at hr
    simp only [getFactsResults, mem_sortDescBy, List.mem_filterMap] at hr
    obtain ⟨f, hf, hbody⟩ := hr
    by_cases hst : f.status = FactStatus.forgotten
    · rw [if_pos hst] at hbody
      exact absurd hbody (by simp)
    · rw [if_neg hst] at hbody
      by_cases hm : minConf ≤ calculateEffectiveConfidence now f
      · rw [if_pos hm] at hbody
        obtain rfl := Option.some.inj hbody
        exact ⟨f, hf, hst, rfl, rfl, hm⟩
      · rw [if_neg hm] at hbody
        exact absurd hbody (by simp)
  · intro f hf hst hm
    rw [getFacts]
    simp only [getFactsResults, mem_sortDescBy, List.mem_filterMap]
    exact ⟨f, hf, by rw [if_neg hst, if_pos hm]⟩

/-- C3 witness: on a store of one active and one faded-but-qualifying
fact, ids and length are preserved. -/
theorem alfred_c3_witness :
    (getFacts 0 lit05 [mkFact "fact_1" "a" lit07 0, mkFact "fact_2" "b" lit09 0]).2.length = 2 ∧
    ((getFacts 0 lit05 [mkFact "fact_1" "a" lit07 0, mkFact "fact_2" "b" lit09 0]).2.map
      fun f => f.id) = ["fact_1", "fact_2"] ∧
    (⟨{ mkFact "fact_1" "a" lit07 0 with
        status := statusFromConfidence (calculateEffectiveConfidence 0 (mkFact "fact_1" "a" lit07 0)) },
      calculateEffectiveConfidence 0 (mkFact "fact_1" "a" lit07 0)⟩ : FactR) ∈
      (getFacts 0 lit05 [mkFact "fact_1" "a" lit07 0, mkFact "fact_2" "b" lit09 0]).1 := by
  have h := alfred_c3 0 lit05 [mkFact "fact_1" "a" lit07 0, mkFact "fact_2" "b" lit09 0]
  refine ⟨h.1.trans (by decide), h.2.1.trans (by decide), ?_⟩
  exact h.2.2.2.2.2 (mkFact "fact_1" "a" lit07 0) (by decide) (by decide) (by decide)

/-- C3 counterexample to the claim as stated: a fact whose stored status
is `forgotten` but whose decay clock was reset (effective confidence
`0.9`, far above the fade threshold and the default `min_confidence`) is
*not* reclassified and *not* returned by `get_facts` — the read skips
facts already marked `forgotten`.  It is not deleted either. -/
theorem alfred_c3_counterexample :
    revivedFact.status = .forgotten ∧
    lit03 ≤ calculateEffectiveConfidence 0 revivedFact ∧
    lit05 ≤ calculateEffectiveConfidence 0 revivedFact ∧
    getFacts 0 lit05 [revivedFact] = ([], [revivedFact]) := by
  decide

/-- C7: `consolidate` fails atomically.  When the gathered context has
fewer than 3 contributing items (facts + patterns + conversations), or
the oracle call raises, or its output cannot be parsed, it returns
failure and the stored Understanding — every field including
`last_consolidated` — is exactly what it was. -/
theorem alfred_c7 (now : ℤ) (hasApiKey : Bool) (ctx : ConsContext)
    (outcome : OracleOutcome) (u : Understanding)
    (h : ctx.facts.length + ctx.patterns.length + ctx.conversations.length < 3 ∨
        outcome = .failure ∨ outcome = .unparseable) :
    consolidate now hasApiKey ctx outcome u = (false, u) := by
  cases hasApiKey with
  | false => rfl
  | true =>
    unfold consolidate
    simp only [Bool.not_true, Bool.false_eq_true, if_false]
    by_cases ht : ctx.facts.length + ctx.patterns.length + ctx.conversations.length < 3
    · rw [if_pos ht]
    · rw [if_neg ht]
      rcases h with h | rfl | rfl
      · exact absurd h ht
      · rfl
      · rfl

/-- C7 witness: two contributing items with a parsed response — thin
data alone forces a no-op. -/
theorem alfred_c7_witness :
    consolidate 5 true ⟨["fact one"], [], ["a chat"]⟩
      (.parsed (.obj [("personality_sketch", .str "curious")])) defaultUnderstanding =
      (false, defaultUnderstanding) :=
  alfred_c7 5 true ⟨["fact one"], [], ["a chat"]⟩ _ defaultUnderstanding
    (Or.inl (by decide))

/-- C10: on a graph holding exactly one person — "Marcus from Brooklyn"
with alias "Marcus", not recently mentioned, no visits — `find_by_name`
returns that person twice for the query "Marcus" (an alias match of score
`1.0` and a `0.8` partial match, the primary similarity being below the
threshold), so `process_mention` answers `ambiguous` instead of updating
and queues one clarification listing the same person twice. -/
theorem alfred_c10 :
    nameSimilarity "Marcus" "Marcus from Brooklyn" < lit07 ∧
    ((findByName "Marcus" lit07 [marcusPerson]).map fun m => (m.key, m.score, m.matched_on)) =
      [("marcus_from_brooklyn_friend", 1, "Marcus"),
       ("marcus_from_brooklyn_friend", lit08, "partial")] ∧
    (processMention 1000000 "pid" "sfx" "Marcus" none [] false none
      ⟨[marcusPerson], []⟩).1.action = "ambiguous" ∧
    (processMention 1000000 "pid" "sfx" "Marcus" none [] false none
      ⟨[marcusPerson], []⟩).2.people = [marcusPerson] ∧
    (processMention 1000000 "pid" "sfx" "Marcus" none [] false none
      ⟨[marcusPerson], []⟩).2.pending_clarifications =
      [⟨"Marcus",
        [⟨"marcus_from_brooklyn_friend", "Marcus from Brooklyn", "friend"⟩,
         ⟨"marcus_from_brooklyn_friend", "Marcus from Brooklyn", "friend"⟩], 1000000⟩] := by
  decide

/-- C1: a duplicate (case/strip-insensitive) text reinforces instead of
creating — the store keeps its length, the first matching fact gains
`min(confidence + 0.2, 1.0)`, a fresh decay clock and an incremented
counter, and reinforcement can never push confidence above `1.0`.  The
end-to-end scenario `add_fact("likes jazz", 0.7)` then
`add_fact("likes jazz", 0.6)` leaves exactly one fact with
`reinforcement_count = 1` whose confidence is the binary64 sum
`0.7 + 0.2` — the value the spec writes `0.9 (0.7+0.2)`, equal to
`8106479329266892 / 2^53` and within `2^-52` of `9/10`. -/
theorem alfred_c1 :
    (∀ (now : ℤ) (newId : String) (resp : Option String) (text : String) (conf : ℚ)
        (src : String) (facts : List Fact),
        facts.any (fun f => matchesFact text f) = true →
        addFact now newId resp text conf src facts = reinforceFirst now text facts ∧
        (addFact now newId resp text conf src facts).length = facts.length) ∧
    (∀ (now : ℤ) (f : Fact),
        (reinforceFact now f).confidence = min (fadd f.confidence lit02) 1 ∧
        (reinforceFact now f).last_reinforced = some now ∧
        (reinforceFact now f).reinforcement_count = f.reinforcement_count + 1 ∧
        (reinforceFact now f).confidence ≤ 1) ∧
    (∀ (t1 t2 : ℤ) (id1 id2 : String) (r1 r2 : Option String),
        addFact t2 id2 r2 "likes jazz" lit06 "conversation"
          (addFact t1 id1 r1 "likes jazz" lit07 "conversation" []) =
        [{ id := id1, fact := "likes jazz", confidence := fadd lit07 lit02,
           source := "conversation", learned := t1, last_reinforced := some t2,
           reinforcement_count := 1, status := .active, contradicts := [] }]) ∧
    (fadd lit07 lit02 = Rat.divInt 8106479329266892 (2 ^ 53) ∧
      fadd lit07 lit02 < lit09 ∧
      qsub lit09 (fadd lit07 lit02) ≤ Rat.divInt 1 (2 ^ 52)) := by
  have hlen : ∀ (now : ℤ) (text : String) (facts : List Fact),
      (reinforceFirst now text facts).length = facts.length := by
    intro now text facts
    induction facts with
    | nil => rfl
    | cons f rest ih =>
      rw [reinforceFirst]
      by_cases h : matchesFact text f = true
      · rw [if_pos h]
        rfl
      · rw [if_neg h]
        simpa using ih
  refine ⟨?_, ?_, ?_, by decide⟩
  · intro now newId resp text conf src facts h
    rw [addFact, if_pos h]
    exact ⟨rfl, hlen now text facts⟩
  · intro now f
    exact ⟨rfl, rfl, rfl, min_le_right _ _⟩
  · intro t1 t2 id1 id2 r1 r2
    have hmin7 : min lit07 1 = lit07 := by decide
    have hmin9 : min (fadd lit07 lit02) 1 = fadd lit07 lit02 := by decide
    have h1 : addFact t1 id1 r1 "likes jazz" lit07 "conversation" [] =
        [{ id := id1, fact := "likes jazz", confidence := lit07,
           source := "conversation", learned := t1, last_reinforced := some t1,
           reinforcement_count := 0, status := .active, contradicts := [] }] := by
      rw [addFact, if_neg (by decide)]
      simp [checkContradictions, getFactsResults, updateStatuses, sortDescBy, hmin7]
    rw [h1]
    have hm : matchesFact "likes jazz"
        ({ id := id1, fact := "likes jazz", confidence := lit07,
           source := "conversation", learned := t1, last_reinforced := some t1,
           reinforcement_count := 0, status := .active, contradicts := [] } : Fact) = true := by
      rfl
    rw [addFact, if_pos (by simp [hm])]
    rw [reinforceFirst, if_pos hm, reinforceFact]
    simp [hmin9]

/-- C1 witness: a concrete reinforcement (duplicate modulo case and
whitespace) and the concrete two-call scenario. -/
theorem alfred_c1_witness :
    (addFact 7 "fact_n" none "Likes Jazz " lit06 "conversation"
        [mkFact "fact_a" "likes jazz" lit07 0] =
      reinforceFirst 7 "Likes Jazz " [mkFact "fact_a" "likes jazz" lit07 0]) ∧
    (addFact 7 "fact_n" none "Likes Jazz " lit06 "conversation"
        [mkFact "fact_a" "likes jazz" lit07 0]).length = 1 ∧
    addFact 7 "fact_b" none "likes jazz" lit06 "conversation"
        (addFact 0 "fact_a" none "likes jazz" lit07 "conversation" []) =
      [{ id := "fact_a", fact := "likes jazz", confidence := fadd lit07 lit02,
         source := "conversation", learned := 0, last_reinforced := some 7,
         reinforcement_count := 1, status := .active, contradicts := [] }] := by
  have h1 := alfred_c1.1 7 "fact_n" none "Likes Jazz " lit06 "conversation"
    [mkFact "fact_a" "likes jazz" lit07 0] (by decide)
  have h3 := alfred_c1.2.2.1 0 7 "fact_a" "fact_b" none none
  exact ⟨h1.1, h1.2.trans (by decide), h3⟩

/-- C9: `find_by_name` grants a `0.8`-score `"partial"` match to every
active person whose canonical name contains the queried name as a
case-insensitive substring, even when the literal similarity ratio is
below the `0.7` threshold, and its result list is sorted by score
descending. -/
theorem alfred_c9 (people : List Person) (p : Person) (name : String)
    (hp : p ∈ people) (hact : p.status ≠ "removed")
    (hsub : listInfix (pyLower name).data (pyLower p.name).data = true)
    (hlow : nameSimilarity name p.name < lit07) :
    (∃ m ∈ findByName name lit07 people,
      m.key = p.key ∧ m.person = p ∧ m.score = lit08 ∧ m.matched_on = "partial") ∧
    (findByName name lit07 people).Pairwise (fun m1 m2 => m2.score ≤ m1.score) := by
  constructor
  · have hmem : (⟨p.key, p, lit08, "partial"⟩ : NameMatch) ∈ entriesForPerson name lit07 p := by
      unfold entriesForPerson
      rw [if_neg hact, if_neg (not_le.mpr hlow)]
      refine List.mem_append.mpr (Or.inr ?_)
      rw [if_pos hsub]
      exact List.mem_singleton.mpr rfl
    refine ⟨⟨p.key, p, lit08, "partial"⟩, ?_, rfl, rfl, rfl, rfl⟩
    rw [findByName, mem_sortDescBy]
    exact List.mem_flatMap.mpr ⟨p, hp, hmem⟩
  · exact pairwise_sortDescBy _ _

/-- C9 witness: "Marcus" against "Marcus from Brooklyn" (similarity
`12/26 < 0.7`, containment holds). -/
theorem alfred_c9_witness :
    (∃ m ∈ findByName "Marcus" lit07 [marcusPerson],
      m.key = marcusPerson.key ∧ m.person = marcusPerson ∧ m.score = lit08 ∧
        m.matched_on = "partial") ∧
    (findByName "Marcus" lit07 [marcusPerson]).Pairwise
      (fun m1 m2 => m2.score ≤ m1.score) :=
  alfred_c9 [marcusPerson] marcusPerson "Marcus" (by decide) (by decide) (by decide)
    (by decide)

/-- C4: with two active people of the same name whose relationship types
both differ from any given hint, neither mentioned in the last seven
days and neither expecting a visit, `process_mention` on that name
answers `ambiguous`, modifies no person, and leaves exactly one pending
clarification for that name, replacing any prior one (listing both
candidates). -/
theorem alfred_c4 (now : ℤ) (pid sfx : String) (p1 p2 : Person) (hint : Option String)
    (details : List String) (visiting : Bool) (vt : Option String)
    (pending : List PendingClarification)
    (hname : p2.name = p1.name)
    (hact1 : p1.status = "active") (hact2 : p2.status = "active")
    (_hdiff : p1.relationship_type ≠ p2.relationship_type)
    (hhint : ∀ h, hint = some h → p1.relationship_type ≠ h ∧ p2.relationship_type ≠ h)
    (hrec1 : p1.last_mentioned ≤ now - 7 * 86400)
    (hrec2 : p2.last_mentioned ≤ now - 7 * 86400)
    (hvis1 : p1.expected_visits = []) (hvis2 : p2.expected_visits = []) :
    (processMention now pid sfx p1.name hint details visiting vt
      ⟨[p1, p2], pending⟩).1.action = "ambiguous" ∧
    (processMention now pid sfx p1.name hint details visiting vt
      ⟨[p1, p2], pending⟩).2.people = [p1, p2] ∧
    (processMention now pid sfx p1.name hint details visiting vt
      ⟨[p1, p2], pending⟩).2.pending_clarifications =
      (pending.filter fun c => !(pyLower c.name == pyLower p1.name)) ++
        [⟨p1.name, [⟨p1.key, p1.name, p1.relationship_type⟩,
                    ⟨p2.key, p2.name, p2.relationship_type⟩], now⟩] ∧
    ((processMention now pid sfx p1.name hint details visiting vt
      ⟨[p1, p2], pending⟩).2.pending_clarifications.filter
        fun c => pyLower c.name == pyLower p1.name).length = 1 := by
  have he1 : entriesForPerson p1.name lit07 p1 = [⟨p1.key, p1, 1, "name"⟩] := by
    unfold entriesForPerson
    rw [if_neg (by simp [hact1]), nameSimilarity_self,
      if_pos (by decide : lit07 ≤ (1 : ℚ))]
  have he2 : entriesForPerson p1.name lit07 p2 = [⟨p2.key, p2, 1, "name"⟩] := by
    rw [← hname]
    unfold entriesForPerson
    rw [if_neg (by simp [hact2]), nameSimilarity_self,
      if_pos (by decide : lit07 ≤ (1 : ℚ))]
  have hfind : findByName p1.name lit07 [p1, p2] =
      [⟨p1.key, p1, 1, "name"⟩, ⟨p2.key, p2, 1, "name"⟩] := by
    rw [findByName]
    have hflat : ([p1, p2].flatMap (entriesForPerson p1.name lit07)) =
        [⟨p1.key, p1, 1, "name"⟩, ⟨p2.key, p2, 1, "name"⟩] := by
      simp [List.flatMap_cons, he1, he2]
    rw [hflat]
    simp [sortDescBy, insDescBy]
  have hres : autoResolve now [⟨p1.key, p1, 1, "name"⟩, ⟨p2.key, p2, 1, "name"⟩] hint =
      none := by
    unfold autoResolve
    have hb1 : decide ((now - 7 * 86400) < p1.last_mentioned) = false :=
      decide_eq_false (not_lt.mpr hrec1)
    have hb2 : decide ((now - 7 * 86400) < p2.last_mentioned) = false :=
      decide_eq_false (not_lt.mpr hrec2)
    have hrm :
        ([(⟨p1.key, p1, 1, "name"⟩ : NameMatch), ⟨p2.key, p2, 1, "name"⟩].filter
          fun m => decide ((now - 7 * 86400) < m.person.last_mentioned)) = [] := by
      simp only [List.filter, hb1, hb2]
    have hvm :
        ([(⟨p1.key, p1, 1, "name"⟩ : NameMatch), ⟨p2.key, p2, 1, "name"⟩].filter
          fun m => !m.person.expected_visits.isEmpty) = [] := by
      simp [List.filter, hvis1, hvis2]
    cases hint with
    | none =>
      simp only []
      rw [hrm, hvm]
      rfl
    | some h =>
      have hf1 : (p1.relationship_type == h) = false :=
        beq_eq_false_iff_ne.mpr (hhint h rfl).1
      have hf2 : (p2.relationship_type == h) = false :=
        beq_eq_false_iff_ne.mpr (hhint h rfl).2
      have htm :
          ([(⟨p1.key, p1, 1, "name"⟩ : NameMatch), ⟨p2.key, p2, 1, "name"⟩].filter
            fun m => m.person.relationship_type == h) = [] := by
        simp only [List.filter, hf1, hf2]
      simp only [htm]
      rw [hrm, hvm]
      rfl
  have hstep : processMention now pid sfx p1.name hint details visiting vt
      ⟨[p1, p2], pending⟩ =
      (⟨"ambiguous", none, [⟨p1.key, p1, 1, "name"⟩, ⟨p2.key, p2, 1, "name"⟩]⟩,
        addPendingClarification now p1.name
          [⟨p1.key, p1, 1, "name"⟩, ⟨p2.key, p2, 1, "name"⟩] ⟨[p1, p2], pending⟩) := by
    rw [processMention]
    rw [hfind]
    simp only [hres]
  rw [hstep]
  refine ⟨rfl, rfl, rfl, ?_⟩
  simp only [addPendingClarification, List.filter_append, filter_not_filter]
  simp [List.filter]

/-- C4 witness: two "Anna"s (friend and colleague), hint "sister", one
stale clarification already queued. -/
theorem alfred_c4_witness :
    (processMention 1000000 "pid" "sfx" annaFriend.name (some "sister") [] false none
      ⟨[annaFriend, annaColleague], [⟨"anna", [], 5⟩]⟩).1.action = "ambiguous" ∧
    (processMention 1000000 "pid" "sfx" annaFriend.name (some "sister") [] false none
      ⟨[annaFriend, annaColleague], [⟨"anna", [], 5⟩]⟩).2.people =
      [annaFriend, annaColleague] ∧
    (processMention 1000000 "pid" "sfx" annaFriend.name (some "sister") [] false none
      ⟨[annaFriend, annaColleague], [⟨"anna", [], 5⟩]⟩).2.pending_clarifications =
      (([⟨"anna", [], 5⟩] : List PendingClarification).filter
          fun c => !(pyLower c.name == pyLower annaFriend.name)) ++
        [⟨annaFriend.name,
          [⟨annaFriend.key, annaFriend.name, annaFriend.relationship_type⟩,
           ⟨annaColleague.key, annaColleague.name, annaColleague.relationship_type⟩],
          1000000⟩] ∧
    ((processMention 1000000 "pid" "sfx" annaFriend.name (some "sister") [] false none
      ⟨[annaFriend, annaColleague], [⟨"anna", [], 5⟩]⟩).2.pending_clarifications.filter
        fun c => pyLower c.name == pyLower annaFriend.name).length = 1 :=
  alfred_c4 1000000 "pid" "sfx" annaFriend annaColleague (some "sister") [] false none
    [⟨"anna", [], 5⟩] (by decide) (by decide) (by decide) (by decide)
    (by intro h hh; constructor <;> (injection hh with hh2; rw [← hh2]; decide))
    (by decide) (by decide) (by decide) (by decide)

/-- After `promoteOne`, a pattern can never fire again: it is either
promoted now, was already, or fails the thresholds unchanged. -/
theorem promoteOne_then (n1 n2 : ℤ) (p : Pattern) :
    (promoteOne n2 (promoteOne n1 p).1).2 = none := by
  by_cases h1 : p.promoted = true
  · have hinner : (promoteOne n1 p).1 = p := by rw [promoteOne, if_pos h1]
    rw [hinner, promoteOne, if_pos h1]
  · by_cases h2 : lit06 ≤ p.confidence ∧ 5 ≤ p.observations
    · have hinner : (promoteOne n1 p).1 =
          { p with promoted := true, promoted_date := some n1 } := by
        rw [promoteOne, if_neg h1, if_pos h2]
      rw [hinner, promoteOne]
      simp
    · have hinner : (promoteOne n1 p).1 = p := by rw [promoteOne, if_neg h1, if_neg h2]
      rw [hinner, promoteOne, if_neg h1, if_neg h2]

/-- A promoted pattern survives the in-place update of
`update_patterns` with its key and flag intact. -/
theorem updateFirstPattern_keeps_promoted (np : Pattern) (l : List Pattern) (p : Pattern)
    (hp : p ∈ l) (hprom : p.promoted = true) :
    ∃ q ∈ updateFirstPattern np l, q.type = p.type ∧ q.time_bucket = p.time_bucket ∧
      q.promoted = true := by
  induction l with
  | nil => cases hp
  | cons x xs ih =>
    rw [updateFirstPattern]
    by_cases hs : samePattern np x = true
    · rw [if_pos hs]
      rcases List.mem_cons.mp hp with rfl | hp2
      · exact ⟨{ p with observations := np.observations, confidence := np.confidence, last_observed := np.last_observed }, List.mem_cons_self _ _, rfl, rfl, hprom⟩
      · exact ⟨p, List.mem_cons_of_mem _ hp2, rfl, rfl, hprom⟩
    · rw [if_neg hs]
      rcases List.mem_cons.mp hp with rfl | hp2
      · exact ⟨p, List.mem_cons_self _ _, rfl, rfl, hprom⟩
      · obtain ⟨q, hq, h1, h2, h3⟩ := ih hp2
        exact ⟨q, List.mem_cons_of_mem _ hq, h1, h2, h3⟩

/-- A promoted pattern survives the whole merge fold of
`update_patterns`. -/
theorem merge_keeps_promoted (nps : List Pattern) (acc : List Pattern) (p : Pattern)
    (hp : p ∈ acc) (hprom : p.promoted = true) :
    ∃ q ∈ nps.foldl (fun acc np =>
        if acc.any (samePattern np) then updateFirstPattern np acc else acc ++ [np]) acc,
      q.type = p.type ∧ q.time_bucket = p.time_bucket ∧ q.promoted = true := by
  induction nps generalizing acc p with
  | nil => exact ⟨p, hp, rfl, rfl, hprom⟩
  | cons np rest ih =>
    rw [List.foldl_cons]
    by_cases h : (acc.any (samePattern np)) = true
    · rw [if_pos h]
      obtain ⟨q, hq, ht, hb, hpr⟩ := updateFirstPattern_keeps_promoted np acc p hp hprom
      obtain ⟨q2, hq2, ht2, hb2, hpr2⟩ := ih _ q hq hpr
      exact ⟨q2, hq2, ht2.trans ht, hb2.trans hb, hpr2⟩
    · rw [if_neg h]
      exact ih _ p (List.mem_append_left _ hp) hprom

/-- C6 (amended): promotion happens at most once per stored pattern — it
fires only for a pattern whose `promoted` flag is unset, whose confidence
is at least `0.6` and whose observation count is at least 5; promoting
twice in a row fires nothing the second time; `update_patterns` never
clears a `promoted` flag; and feeding the same **six** qualifying
weekday-morning events twice (six are needed: five give confidence
`0.5 < 0.6`) promotes once, with the second run updating the stored
observation count and leaving exactly one routine keyed
`morning_departure`. -/
theorem alfred_c6 :
    (∀ (n1 n2 : ℤ) (s : PatternsState),
      (promotePatterns n2 (promotePatterns n1 s).1).2 = []) ∧
    (∀ (now : ℤ) (s : PatternsState) (ty : String),
      ty ∈ (promotePatterns now s).2 →
      ∃ p ∈ s.door_patterns, p.promoted = false ∧ lit06 ≤ p.confidence ∧
        5 ≤ p.observations ∧ p.type = ty) ∧
    (∀ (now : ℤ) (events : List DoorEvent) (s : PatternsState) (p : Pattern),
      p ∈ s.door_patterns → p.promoted = true →
      ∃ q ∈ (updatePatterns now events s).1.door_patterns,
        q.type = p.type ∧ q.time_bucket = p.time_bucket ∧ q.promoted = true) ∧
    ((updatePatterns 100 morningEvents6 ⟨[], none, []⟩).2.2 = ["morning_departure"] ∧
      (updatePatterns 200 morningEvents6
        (updatePatterns 100 morningEvents6 ⟨[], none, []⟩).1).2.2 = [] ∧
      ((updatePatterns 200 morningEvents6
        (updatePatterns 100 morningEvents6 ⟨[], none, []⟩).1).1.routines.map
          fun r => r.key) = ["morning_departure"] ∧
      (∃ p ∈ (updatePatterns 200 morningEvents6
          (updatePatterns 100 morningEvents6 ⟨[], none, []⟩).1).1.door_patterns,
        p.type = "morning_departure" ∧ p.observations = 6 ∧ p.promoted = true)) := by
  refine ⟨?_, ?_, ?_, by decide⟩
  · intro n1 n2 s
    rw [promotePatterns, promotePatterns]
    simp only [List.filterMap_map]
    have h0 : List.filterMap ((fun p => (promoteOne n2 p).2) ∘ fun p => (promoteOne n1 p).1)
        s.door_patterns = [] :=
      List.filterMap_eq_nil_iff.mpr fun p _ => promoteOne_then n1 n2 p
    rw [h0]
    rfl
  · intro now s ty hty
    rw [promotePatterns] at hty
    simp only [List.mem_map, List.mem_filterMap] at hty
    obtain ⟨kv, ⟨p, hp, hpr⟩, hkv⟩ := hty
    rw [promoteOne] at hpr
    by_cases h1 : p.promoted = true
    · rw [if_pos h1] at hpr
      cases hpr
    · rw [if_neg h1] at hpr
      by_cases h2 : lit06 ≤ p.confidence ∧ 5 ≤ p.observations
      · rw [if_pos h2] at hpr
        obtain rfl := Option.some.inj hpr
        exact ⟨p, hp, Bool.not_eq_true _ ▸ h1, h2.1, h2.2, hkv⟩
      · rw [if_neg h2] at hpr
        cases hpr
  · intro now events s p hp hprom
    rw [updatePatterns]
    obtain ⟨q, hq, ht, hb, hpr⟩ := merge_keeps_promoted
      (analyzeDoorEvents events) s.door_patterns p hp hprom
    rw [promotePatterns]
    refine ⟨(promoteOne now q).1, List.mem_map.mpr ⟨q, hq, rfl⟩, ?_⟩
    rw [promoteOne, if_pos hpr]
    exact ⟨ht, hb, hpr⟩

/-- C6 witness for the quantified clauses. -/
theorem alfred_c6_witness :
    (promotePatterns 200 (promotePatterns 100
      (updatePatterns 100 morningEvents6 ⟨[], none, []⟩).1).1).2 = [] ∧
    (∃ p ∈ qualifyingState.door_patterns,
      p.promoted = false ∧ lit06 ≤ p.confidence ∧ 5 ≤ p.observations ∧
        p.type = "morning_departure") := by
  constructor
  · exact alfred_c6.1 100 200 (updatePatterns 100 morningEvents6 ⟨[], none, []⟩).1
  · exact alfred_c6.2.1 300 qualifyingState "morning_departure" (by decide)

/-- C6 counterexample to the claim as stated: with exactly five qualifying
weekday-morning events the detected pattern has confidence `0.5`, below
the `0.6` threshold, so running `update_patterns` twice fires no
promotion at all and leaves no routine — not "exactly one". -/
theorem alfred_c6_counterexample :
    (updatePatterns 100 morningEvents5 ⟨[], none, []⟩).2.2 = [] ∧
    (updatePatterns 200 morningEvents5
      (updatePatterns 100 morningEvents5 ⟨[], none, []⟩).1).2.2 = [] ∧
    (updatePatterns 200 morningEvents5
      (updatePatterns 100 morningEvents5 ⟨[], none, []⟩).1).1.routines = [] ∧
    (∃ p ∈ (updatePatterns 200 morningEvents5
        (updatePatterns 100 morningEvents5 ⟨[], none, []⟩).1).1.door_patterns,
      p.type = "morning_departure" ∧ p.observations = 5 ∧ p.promoted = false) := by
  decide

/-- Every freshly analyzed pattern carries
`confidence = min(observations / 10, 1.0)`. -/
theorem analyze_confidence (events : List DoorEvent) :
    ConfidenceInvariant (analyzeDoorEvents events) := by
  intro p hp
  rw [analyzeDoorEvents] at hp
  by_cases hlen : events.length < 5
  · rw [if_pos hlen] at hp
    cases hp
  · rw [if_neg hlen] at hp
    have hact : ∀ (tname dayName : String) (evs : List DoorEvent),
        p ∈ activityPatterns tname dayName evs →
        p.confidence = patternConfidence p.observations := by
      intro tname dayName evs hmem
      rw [activityPatterns] at hmem
      obtain ⟨b, _, hbody⟩ := List.mem_filterMap.mp hmem
      by_cases hb : 5 ≤ (evs.filter fun e => timeBucket e == b).length
      · rw [if_pos hb] at hbody
        obtain rfl := Option.some.inj hbody
        rfl
      · rw [if_neg hb] at hbody
        cases hbody
    have hwin : ∀ (tname verb timeOfDay : String) (lo hi : ℕ),
        p ∈ windowPattern tname verb timeOfDay lo hi events →
        p.confidence = patternConfidence p.observations := by
      intro tname verb timeOfDay lo hi hmem
      rw [windowPattern] at hmem
      by_cases hw : 5 ≤ (events.filter fun e =>
          !isWeekend e && decide (lo ≤ e.hour) && decide (e.hour ≤ hi)).length
      · rw [if_pos hw] at hmem
        obtain rfl := List.mem_singleton.mp hmem
        rfl
      · rw [if_neg hw] at hmem
        cases hmem
    rcases List.mem_append.mp hp with hp | hp5
    rotate_left
    · rw [nightPattern] at hp5
      by_cases hn : 5 ≤ (events.filter fun e =>
          decide (23 ≤ e.hour) || decide (e.hour < 4)).length
      · rw [if_pos hn] at hp5
        obtain rfl := List.mem_singleton.mp hp5
        rfl
      · rw [if_neg hn] at hp5
        cases hp5
    rcases List.mem_append.mp hp with hp | hp4
    rotate_left
    · exact hwin _ _ _ _ _ hp4
    rcases List.mem_append.mp hp with hp | hp3
    rotate_left
    · exact hwin _ _ _ _ _ hp3
    rcases List.mem_append.mp hp with hp1 | hp2
    · exact hact _ _ _ hp1
    · exact hact _ _ _ hp2

/-- The in-place update keeps the invariant when the fresh pattern
satisfies it. -/
theorem updateFirstPattern_confidence (np : Pattern)
    (hnp : np.confidence = patternConfidence np.observations) (l : List Pattern)
    (hl : ConfidenceInvariant l) :
    ConfidenceInvariant (updateFirstPattern np l) := by
  induction l with
  | nil => intro p hp; cases hp
  | cons x xs ih =>
    have hx := hl x (List.mem_cons_self _ _)
    have hxs : ConfidenceInvariant xs := fun q hq => hl q (List.mem_cons_of_mem _ hq)
    intro p hp
    rw [updateFirstPattern] at hp
    by_cases hs : samePattern np x = true
    · rw [if_pos hs] at hp
      rcases List.mem_cons.mp hp with rfl | hp2
      · exact hnp
      · exact hxs p hp2
    · rw [if_neg hs] at hp
      rcases List.mem_cons.mp hp with rfl | hp2
      · exact hx
      · exact ih hxs p hp2

/-- C8 (amended): every stored pattern always satisfies
`confidence = min(observations / 10, 1.0)` — `update_patterns` preserves
the invariant and fresh analyses establish it — and that formula is
monotone in the observation count (checked on the counts 0..20); but
confidence is *not* monotone across calls: `update_patterns` overwrites
it from the newest event window, so a thinner later window lowers it, as
the counterexample shows. -/
theorem alfred_c8 :
    (∀ events : List DoorEvent, ConfidenceInvariant (analyzeDoorEvents events)) ∧
    (∀ (now : ℤ) (events : List DoorEvent) (s : PatternsState),
      ConfidenceInvariant s.door_patterns →
      ConfidenceInvariant (updatePatterns now events s).1.door_patterns) ∧
    (∀ m, m ≤ 20 → ∀ n, n ≤ m → patternConfidence n ≤ patternConfidence m) := by
  refine ⟨analyze_confidence, ?_, by decide⟩
  intro now events s hs
  rw [updatePatterns, promotePatterns]
  intro p hp
  simp only [List.mem_map] at hp
  obtain ⟨q, hq, rfl⟩ := hp
  have hmerge : ∀ (nps : List Pattern) (acc : List Pattern),
      ConfidenceInvariant nps → ConfidenceInvariant acc →
      ConfidenceInvariant (nps.foldl (fun acc np =>
        if acc.any (samePattern np) then updateFirstPattern np acc else acc ++ [np]) acc) := by
    intro nps
    induction nps with
    | nil => intro acc _ hacc; exact hacc
    | cons np rest ih =>
      intro acc hnps hacc
      rw [List.foldl_cons]
      have hnp := hnps np (List.mem_cons_self _ _)
      have hrest : ConfidenceInvariant rest := fun r hr =>
        hnps r (List.mem_cons_of_mem _ hr)
      by_cases h : (acc.any (samePattern np)) = true
      · rw [if_pos h]
        exact ih _ hrest (updateFirstPattern_confidence np hnp acc hacc)
      · rw [if_neg h]
        refine ih _ hrest ?_
        intro r hr
        rcases List.mem_append.mp hr with hr | hr1
        · exact hacc r hr
        · obtain rfl := List.mem_singleton.mp hr1
          exact hnp
  have hq2 := hmerge (analyzeDoorEvents events) s.door_patterns
    (analyze_confidence events) hs q hq
  rw [promoteOne]
  by_cases h1 : q.promoted = true
  · rw [if_pos h1]
    exact hq2
  · rw [if_neg h1]
    by_cases h2 : lit06 ≤ q.confidence ∧ 5 ≤ q.observations
    · rw [if_pos h2]
      exact hq2
    · rw [if_neg h2]
      exact hq2

/-- C8 witness: the invariant holds concretely after an update from the
empty store. -/
theorem alfred_c8_witness :
    ConfidenceInvariant (updatePatterns 100 busyEvents8 ⟨[], none, []⟩).1.door_patterns ∧
    patternConfidence 5 ≤ patternConfidence 8 := by
  constructor
  · exact alfred_c8.2.1 100 busyEvents8 ⟨[], none, []⟩ (by intro p hp; cases hp)
  · exact alfred_c8.2.2 8 (by decide) 5 (by decide)

/-- C8 counterexample to the claim as stated: a stored pattern's
confidence *decreases* across `update_patterns` calls when the later
event window holds fewer events — `0.8` after eight events in the 8:00
bucket, overwritten to `0.5` after a later call with five. -/
theorem alfred_c8_counterexample :
    (((updatePatterns 100 busyEvents8 ⟨[], none, []⟩).1.door_patterns.find?
        fun p => p.type == "weekday_activity").map fun p => p.confidence) = some lit08 ∧
    (((updatePatterns 200 busyEvents5
        (updatePatterns 100 busyEvents8 ⟨[], none, []⟩).1).1.door_patterns.find?
        fun p => p.type == "weekday_activity").map fun p => p.confidence) = some lit05 ∧
    lit05 < lit08 := by
  decide

theorem forall₂_mem_right {R : α → β → Prop} {l1 : List α} {l2 : List β}
    (h : List.Forall₂ R l1 l2) {b : β} (hb : b ∈ l2) : ∃ a ∈ l1, R a b := by
  induction h with
  | nil => cases hb
  | cons hab htail ih =>
    rcases List.mem_cons.mp hb with rfl | hb2
    · exact ⟨_, List.mem_cons_self _ _, hab⟩
    · obtain ⟨a, ha, hr⟩ := ih hb2
      exact ⟨a, List.mem_cons_of_mem _ ha, hr⟩

theorem forall₂_mem_left {R : α → β → Prop} {l1 : List α} {l2 : List β}
    (h : List.Forall₂ R l1 l2) {a : α} (ha : a ∈ l1) : ∃ b ∈ l2, R a b := by
  induction h with
  | nil => cases ha
  | cons hab htail ih =>
    rcases List.mem_cons.mp ha with rfl | ha2
    · exact ⟨_, List.mem_cons_self _ _, hab⟩
    · obtain ⟨b, hb, hr⟩ := ih ha2
      exact ⟨b, List.mem_cons_of_mem _ hb, hr⟩

theorem forall₂_shape_ids {l1 l2 : List Fact} (h : List.Forall₂ FactShape l1 l2) :
    (l2.map fun f => f.id) = l1.map fun f => f.id := by
  induction h with
  | nil => rfl
  | cons hab _ ih => simp [hab.1, ih]

/-- The invariant transfers along an id/contradicts-preserving
correspondence. -/
theorem inv_of_forall₂ (l1 l2 : List Fact) (h : List.Forall₂ FactShape l1 l2)
    (hinv : ContradictionInvariant l1) : ContradictionInvariant l2 := by
  constructor
  · rw [forall₂_shape_ids h]
    exact hinv.1
  · intro f2 hf2 c hc
    obtain ⟨f1, hf1, hid, hcon⟩ := forall₂_mem_right h hf2
    rw [hcon] at hc
    obtain ⟨g1, hg1, hgid, hgcon⟩ := hinv.2 f1 hf1 c hc
    obtain ⟨g2, hg2, hid2, hcon2⟩ := forall₂_mem_left h hg1
    refine ⟨g2, hg2, by rw [hid2, hgid], ?_⟩
    rw [hcon2, hid]
    exact hgcon

/-- Reinforcing the first match leaves every id and every contradiction
list untouched. -/
theorem reinforceFirst_shape (now : ℤ) (text : String) (facts : List Fact) :
    List.Forall₂ FactShape facts (reinforceFirst now text facts) := by
  induction facts with
  | nil => exact List.Forall₂.nil
  | cons f rest ih =>
    rw [reinforceFirst]
    by_cases h : matchesFact text f = true
    · rw [if_pos h]
      exact List.Forall₂.cons ⟨rfl, rfl⟩
        (List.forall₂_same.mpr fun a _ => ⟨rfl, rfl⟩)
    · rw [if_neg h]
      exact List.Forall₂.cons ⟨rfl, rfl⟩ ih

/-- Appending a fresh fact whose links are mirrored into the facts it
names preserves the invariant. -/
theorem inv_extend (facts : List Fact) (G : Fact → Fact) (newFact : Fact)
    (cIds : List String)
    (hinv : ContradictionInvariant facts)
    (hfresh : ∀ f ∈ facts, f.id ≠ newFact.id)
    (hGid : ∀ f, (G f).id = f.id)
    (hGcon : ∀ f, (G f).contradicts =
      if f.id ∈ cIds then f.contradicts ++ [newFact.id] else f.contradicts)
    (hnewcon : newFact.contradicts = cIds)
    (hcid : ∀ i ∈ cIds, ∃ f ∈ facts, f.id = i) :
    ContradictionInvariant (facts.map G ++ [newFact]) := by
  constructor
  · have hids : ((facts.map G).map fun f => f.id) = facts.map fun f => f.id := by
      rw [List.map_map]
      exact List.map_congr_left fun f _ => hGid f
    rw [List.map_append, hids]
    simp only [List.map_cons, List.map_nil]
    rw [List.nodup_append]
    refine ⟨hinv.1, List.nodup_singleton _, ?_⟩
    intro x hx hx2
    rw [List.mem_singleton] at hx2
    subst hx2
    obtain ⟨f, hf, hfe⟩ := List.mem_map.mp hx
    exact hfresh f hf hfe
  · intro f hf c hc
    rcases List.mem_append.mp hf with hf1 | hf2
    · obtain ⟨f0, hf0, rfl⟩ := List.mem_map.mp hf1
      have hold : c ∈ f0.contradicts →
          ∃ g ∈ facts.map G ++ [newFact], g.id = c ∧ (G f0).id ∈ g.contradicts := by
        intro hc1
        obtain ⟨g, hg, hgid, hgcon2⟩ := hinv.2 f0 hf0 c hc1
        refine ⟨G g, List.mem_append_left _ (List.mem_map_of_mem G hg), by rw [hGid g, hgid], ?_⟩
        rw [hGcon g, hGid f0]
        by_cases hgin : g.id ∈ cIds
        · rw [if_pos hgin]
          exact List.mem_append_left _ hgcon2
        · rw [if_neg hgin]
          exact hgcon2
      rw [hGcon f0] at hc
      by_cases hin : f0.id ∈ cIds
      · rw [if_pos hin] at hc
        rcases List.mem_append.mp hc with hc1 | hc2
        · exact hold hc1
        · rw [List.mem_singleton] at hc2
          subst hc2
          refine ⟨newFact, List.mem_append_right _ (List.mem_singleton_self _), rfl, ?_⟩
          rw [hnewcon, hGid f0]
          exact hin
      · rw [if_neg hin] at hc
        exact hold hc
    · rw [List.mem_singleton] at hf2
      subst hf2
      rw [hnewcon] at hc
      obtain ⟨f0, hf0, hfid⟩ := hcid c hc
      refine ⟨G f0, List.mem_append_left _ (List.mem_map_of_mem G hf0),
        by rw [hGid f0, hfid], ?_⟩
      rw [hGcon f0, if_pos (hfid ▸ hc)]
      exact List.mem_append_right _ (List.mem_singleton_self _)

/-- Every fact flagged by the contradiction check carries the id of a
stored fact. -/
theorem checkContradictions_ids (now : ℤ) (resp : Option String) (facts : List Fact) :
    ∀ x ∈ (checkContradictions now resp facts).1, ∃ f ∈ facts, x.id = f.id := by
  intro x hx
  have hmem : x ∈ (getFactsResults now lit03 facts).map (fun r => r.fact) := by
    simp only [checkContradictions] at hx
    by_cases hemp : (getFactsResults now lit03 facts).isEmpty = true
    · rw [if_pos hemp] at hx
      cases hx
    · rw [if_neg hemp] at hx
      cases resp with
      | none => simp at hx
      | some r =>
        simp only [] at hx
        by_cases hr : r = "NONE"
        · rw [if_pos hr] at hx
          cases hx
        · rw [if_neg hr] at hx
          exact (List.mem_filter.mp hx).1
  obtain ⟨rr, hrr, rfl⟩ := List.mem_map.mp hmem
  rw [getFactsResults, mem_sortDescBy] at hrr
  obtain ⟨f, hf, hbody⟩ := List.mem_filterMap.mp hrr
  by_cases hst : f.status = FactStatus.forgotten
  · rw [if_pos hst] at hbody
    cases hbody
  · rw [if_neg hst] at hbody
    by_cases hm : lit03 ≤ calculateEffectiveConfidence now f
    · rw [if_pos hm] at hbody
      obtain rfl := Option.some.inj hbody
      exact ⟨f, hf, rfl⟩
    · rw [if_neg hm] at hbody
      cases hbody

/-- C5 (amended): any `add_fact` call — duplicate or new, with or without
oracle-reported contradictions — preserves symmetric, dangling-free
contradiction links (given a fresh id).  `resolve_contradiction` does
*not* preserve them in general: as the counterexample shows, a third fact
that contradicted the removed fact keeps a dangling reference to it. -/
theorem alfred_c5 (now : ℤ) (newId : String) (resp : Option String) (text : String)
    (conf : ℚ) (src : String) (facts : List Fact)
    (hinv : ContradictionInvariant facts)
    (hfresh : ∀ f ∈ facts, f.id ≠ newId) :
    ContradictionInvariant (addFact now newId resp text conf src facts) := by
  by_cases hdup : (facts.any fun f => matchesFact text f) = true
  · rw [addFact, if_pos hdup]
    exact inv_of_forall₂ facts _ (reinforceFirst_shape now text facts) hinv
  · rw [addFact, if_neg hdup]
    show ContradictionInvariant
      (((checkContradictions now resp facts).2.map fun f =>
          if f.id ∈ (checkContradictions now resp facts).1.map (fun f => f.id) then
            { f with contradicts := f.contradicts ++ [newId] }
          else f) ++
        [{ id := newId, fact := text, confidence := min conf 1, source := src,
           learned := now, last_reinforced := some now, reinforcement_count := 0,
           status := .active,
           contradicts := (checkContradictions now resp facts).1.map fun f => f.id }])
    have hupd : (checkContradictions now resp facts).2 = updateStatuses now facts := rfl
    rw [hupd, updateStatuses, List.map_map]
    refine inv_extend facts _ _ ((checkContradictions now resp facts).1.map fun f => f.id)
      hinv hfresh ?_ ?_ rfl ?_
    · intro f
      rw [Function.comp_apply]
      by_cases h1 : f.status = FactStatus.forgotten
      · rw [if_pos h1]
        by_cases h2 : f.id ∈ (checkContradictions now resp facts).1.map fun f => f.id
        · rw [if_pos h2]
        · rw [if_neg h2]
      · rw [if_neg h1]
        by_cases h2 : f.id ∈ (checkContradictions now resp facts).1.map fun f => f.id
        · rw [if_pos h2]
        · rw [if_neg h2]
    · intro f
      rw [Function.comp_apply]
      by_cases h1 : f.status = FactStatus.forgotten
      · rw [if_pos h1]
        by_cases h2 : f.id ∈ (checkContradictions now resp facts).1.map fun f => f.id
        · rw [if_pos h2, if_pos h2]
        · rw [if_neg h2, if_neg h2]
      · rw [if_neg h1]
        by_cases h2 : f.id ∈ (checkContradictions now resp facts).1.map fun f => f.id
        · rw [if_pos h2, if_pos h2]
        · rw [if_neg h2, if_neg h2]
    · intro i hi
      obtain ⟨x, hx, rfl⟩ := List.mem_map.mp hi
      obtain ⟨f, hf, hxf⟩ := checkContradictions_ids now resp facts x hx
      exact ⟨f, hf, hxf.symm⟩

/-- C5 witness: adding a third fact whose text the oracle reports as
contradicting both stored facts produces a store whose links are still
symmetric and dangling-free. -/
theorem alfred_c5_witness :
    ContradictionInvariant
      (addFact 0 "fact_c" (some "xy") "zq" lit07 "conversation" baseStore) :=
  alfred_c5 0 "fact_c" (some "xy") "zq" lit07 "conversation" baseStore
    ⟨by decide, by decide⟩ (by decide)

/-- C5 counterexample to the claim as stated: after
`resolve_contradiction(keep="fact_a", remove="fact_c")` on a store where
"fact_c" contradicted both "fact_a" and "fact_b", the surviving "fact_b"
still lists "fact_c" although no stored fact has that id — a dangling,
asymmetric reference. -/
theorem alfred_c5_counterexample :
    (∃ f ∈ resolveContradiction 0 "fact_a" "fact_c"
        (addFact 0 "fact_c" (some "xy") "zq" lit07 "conversation" baseStore),
      "fact_c" ∈ f.contradicts) ∧
    (∀ f ∈ resolveContradiction 0 "fact_a" "fact_c"
        (addFact 0 "fact_c" (some "xy") "zq" lit07 "conversation" baseStore),
      f.id ≠ "fact_c") := by
  decide

end Alfred
